import Mathlib

/-!
Verification of the pg_probackup backup catalog (catalog.c) and validation
engine (validate.c): a shallow embedding of the data model, the metadata
codec, the catalog listing, the backup-selection loops of do_validate, and
the parallel file-validation run, together with proofs of the specified
properties.
-/

set_option maxRecDepth 4000
set_option linter.unusedVariables false

/-! ## Data model (pg_probackup.h enums and the pgBackup record)

The BackupMode ordinals follow the C declaration order, which is visible in
catalog.c through the modes[] table `{"", "PAGE", "PTRACK", "FULL"}` and the
ordinal comparison `backup_mode < BACKUP_MODE_FULL` in validate.c. -/

inductive BackupMode
  | BACKUP_MODE_INVALID
  | BACKUP_MODE_DIFF_PAGE
  | BACKUP_MODE_DIFF_PTRACK
  | BACKUP_MODE_FULL
deriving DecidableEq, Repr

/-- Ordinal of a BackupMode, for the `backup_mode < BACKUP_MODE_FULL` test. -/
def BackupMode.ord : BackupMode → Nat
  | .BACKUP_MODE_INVALID => 0
  | .BACKUP_MODE_DIFF_PAGE => 1
  | .BACKUP_MODE_DIFF_PTRACK => 2
  | .BACKUP_MODE_FULL => 3

/-- Backup statuses; only equality on them is used by the code under src/,
so the declaration order here follows the spec's listing. -/
inductive BackupStatus
  | BACKUP_STATUS_INVALID
  | BACKUP_STATUS_RUNNING
  | BACKUP_STATUS_DONE
  | BACKUP_STATUS_OK
  | BACKUP_STATUS_ERROR
  | BACKUP_STATUS_DELETING
  | BACKUP_STATUS_DELETED
  | BACKUP_STATUS_CORRUPT
deriving DecidableEq, Repr

/-- Modelled from the spec: BYTES_INVALID is the sentinel for an unset
data_bytes / a file "not present in this differential" (pg_rman.h is not
under src/; the spec only requires a distinguished sentinel value). -/
def BYTES_INVALID : Int := -1

/-- The pgBackup record (pg_probackup.h).  Machine integers are embedded as
Nat (uint32/uint64/time_t fields) and Int (the int64 data_bytes). -/
structure pgBackup where
  backup_mode : BackupMode
  status : BackupStatus
  tli : Nat
  start_lsn : Nat
  stop_lsn : Nat
  start_time : Nat
  end_time : Nat
  recovery_xid : Nat
  recovery_time : Nat
  data_bytes : Int
  block_size : Nat
  wal_block_size : Nat
  checksum_version : Nat
  stream : Bool
  parent_backup : Nat
deriving DecidableEq, Repr

/-- catalog_init_config: the default-initialized record.  (The C code leaves
block_size, wal_block_size and checksum_version uninitialized — pgut_new is a
bare malloc — so 0 is chosen for them here; the writer always emits those
three keys, so the choice is unobservable on any written file.) -/
def catalog_init_config : pgBackup where
  backup_mode := .BACKUP_MODE_INVALID
  status := .BACKUP_STATUS_INVALID
  tli := 0
  start_lsn := 0
  stop_lsn := 0
  start_time := 0
  end_time := 0
  recovery_xid := 0
  recovery_time := 0
  data_bytes := BYTES_INVALID
  block_size := 0
  wal_block_size := 0
  checksum_version := 0
  stream := false
  parent_backup := 0

/-! ## Radix rendering and parsing

Shared machinery for printf %x / %d / %u rendering and for the hex, decimal
and base-36 parsers (sscanf %X, pgut numeric options, base36dec). -/

/-- Base-36 digit character: 0-9 then uppercase A-Z (the base36enc table). -/
def digit36 (d : Nat) : Char := if d < 10 then Char.ofNat (48 + d) else Char.ofNat (55 + d)

/-- Lowercase hexadecimal digit, as printf %x emits. -/
def digit16 (d : Nat) : Char := if d < 10 then Char.ofNat (48 + d) else Char.ofNat (87 + d)

/-- Decimal digit. -/
def digit10 (d : Nat) : Char := Char.ofNat (48 + d)

/-- Fuel-driven core of the digit renderer; structural recursion on the fuel
keeps it kernel-reducible, and the fuel (instantiated with n itself) never
runs out on the actual calls. -/
def radixSpin (b : Nat) (dig : Nat → Char) : Nat → Nat → List Char
  | 0, n => [dig (n % b)]
  | fuel + 1, n =>
    if 2 ≤ b ∧ b ≤ n then radixSpin b dig fuel (n / b) ++ [dig (n % b)]
    else [dig (n % b)]

/-- Big-endian digit characters of n in base b (for 2 ≤ b); one digit for
n < b, so 0 renders as a single zero digit as printf and base36enc do. -/
def radixChars (b : Nat) (dig : Nat → Char) (n : Nat) : List Char :=
  radixSpin b dig n n

theorem radixSpin_fuel (b : Nat) (dig : Nat → Char) :
    ∀ fuel fuel' n, n ≤ fuel → n ≤ fuel' →
      radixSpin b dig fuel n = radixSpin b dig fuel' n := by
  intro fuel
  induction fuel with
  | zero =>
    intro fuel' n hf hf'
    have hn : n = 0 := by omega
    subst hn
    rcases fuel' with _ | f
    · rfl
    · show _ = if 2 ≤ b ∧ b ≤ 0 then _ else [dig (0 % b)]
      rw [if_neg (by omega)]
      rfl
  | succ fuel ih =>
    intro fuel' n hf hf'
    rcases fuel' with _ | f
    · have hn : n = 0 := by omega
      subst hn
      show (if 2 ≤ b ∧ b ≤ 0 then _ else [dig (0 % b)]) = _
      rw [if_neg (by omega)]
      rfl
    · show (if 2 ≤ b ∧ b ≤ n then radixSpin b dig fuel (n / b) ++ [dig (n % b)]
          else [dig (n % b)])
        = (if 2 ≤ b ∧ b ≤ n then radixSpin b dig f (n / b) ++ [dig (n % b)]
          else [dig (n % b)])
      by_cases h : 2 ≤ b ∧ b ≤ n
      · rw [if_pos h, if_pos h]
        have hlt : n / b < n := Nat.div_lt_self (by omega) (by omega)
        rw [ih f (n / b) (by omega) (by omega)]
      · rw [if_neg h, if_neg h]

/-- The one-step unfolding that the former well-founded definition would
have given directly. -/
theorem radixChars_eq (b : Nat) (dig : Nat → Char) (n : Nat) :
    radixChars b dig n
      = if 2 ≤ b ∧ b ≤ n then radixChars b dig (n / b) ++ [dig (n % b)]
        else [dig (n % b)] := by
  show radixSpin b dig n n = _
  rcases n with _ | m
  · rw [if_neg (by omega)]
    rfl
  · show (if 2 ≤ b ∧ b ≤ m + 1 then radixSpin b dig m ((m + 1) / b) ++ [dig ((m + 1) % b)]
        else [dig ((m + 1) % b)]) = _
    by_cases h : 2 ≤ b ∧ b ≤ m + 1
    · rw [if_pos h, if_pos h]
      have hlt : (m + 1) / b < m + 1 := Nat.div_lt_self (by omega) (by omega)
      rw [radixSpin_fuel b dig m ((m + 1) / b) ((m + 1) / b) (by omega) (le_refl _)]
      rfl
    · rw [if_neg h, if_neg h]

/-- Accumulating digit-value fold, the common core of the parsers. -/
def radixAccum (b : Nat) (val : Char → Nat) (acc : Nat) (l : List Char) : Nat :=
  l.foldl (fun a c => a * b + val c) acc

theorem radixAccum_nil (b : Nat) (val : Char → Nat) (acc : Nat) :
    radixAccum b val acc [] = acc := rfl

theorem radixAccum_append (b : Nat) (val : Char → Nat) (acc : Nat) (l₁ l₂ : List Char) :
    radixAccum b val acc (l₁ ++ l₂) = radixAccum b val (radixAccum b val acc l₁) l₂ := by
  simp [radixAccum, List.foldl_append]

theorem radixChars_ne_nil (b : Nat) (dig : Nat → Char) (n : Nat) :
    radixChars b dig n ≠ [] := by
  rw [radixChars_eq]
  split
  · simp
  · simp

theorem radixChars_mem (b : Nat) (dig : Nat → Char) (hb : 2 ≤ b) :
    ∀ n, ∀ c ∈ radixChars b dig n, ∃ d, d < b ∧ c = dig d := by
  intro n
  induction n using Nat.strong_induction_on with
  | _ n ih =>
    intro c hc
    rw [radixChars_eq] at hc
    by_cases h : 2 ≤ b ∧ b ≤ n
    · rw [if_pos h] at hc
      rcases List.mem_append.1 hc with h1 | h1
      · exact ih (n / b) (Nat.div_lt_self (by omega) (by omega)) c h1
      · simp only [List.mem_singleton] at h1
        exact ⟨n % b, Nat.mod_lt _ (by omega), h1⟩
    · rw [if_neg h] at hc
      simp only [List.mem_singleton] at hc
      exact ⟨n % b, Nat.mod_lt _ (by omega), hc⟩

theorem radixAccum_radixChars (b : Nat) (dig : Nat → Char) (val : Char → Nat)
    (hb : 2 ≤ b) (hv : ∀ d, d < b → val (dig d) = d) :
    ∀ n acc, radixAccum b val acc (radixChars b dig n)
      = acc * b ^ (radixChars b dig n).length + n := by
  intro n
  induction n using Nat.strong_induction_on with
  | _ n ih =>
    intro acc
    rw [radixChars_eq]
    by_cases h : 2 ≤ b ∧ b ≤ n
    · rw [if_pos h]
      rw [radixAccum_append]
      rw [ih (n / b) (Nat.div_lt_self (by omega) (by omega)) acc]
      have hvm : val (dig (n % b)) = n % b := hv _ (Nat.mod_lt _ (by omega))
      simp only [radixAccum, List.foldl_cons, List.foldl_nil, hvm,
        List.length_append, List.length_singleton]
      calc (acc * b ^ (radixChars b dig (n / b)).length + n / b) * b + n % b
          = acc * (b ^ (radixChars b dig (n / b)).length * b) + (b * (n / b) + n % b) := by
            ring
        _ = acc * b ^ ((radixChars b dig (n / b)).length + 1) + n := by
            rw [pow_succ, Nat.div_add_mod]
    · rw [if_neg h]
      have hn : n < b := by omega
      have : n % b = n := Nat.mod_eq_of_lt hn
      simp only [radixAccum, List.foldl_cons, List.foldl_nil, this, hv n hn,
        List.length_singleton, pow_one]

/-! ## Concrete digit parsers -/

/-- Hexadecimal digit value, accepting both cases (as sscanf %X does). -/
def hexDigitVal (c : Char) : Option Nat :=
  if 48 ≤ c.toNat ∧ c.toNat ≤ 57 then some (c.toNat - 48)
  else if 65 ≤ c.toNat ∧ c.toNat ≤ 70 then some (c.toNat - 55)
  else if 97 ≤ c.toNat ∧ c.toNat ≤ 102 then some (c.toNat - 87)
  else none

/-- Decimal digit value. -/
def decDigitVal (c : Char) : Option Nat :=
  if 48 ≤ c.toNat ∧ c.toNat ≤ 57 then some (c.toNat - 48) else none

/-- Base-36 digit value, case-insensitive (strtoul with base 36). -/
def b36val (c : Char) : Nat :=
  if c.toNat ≤ 57 then c.toNat - 48
  else if c.toNat ≤ 90 then c.toNat - 55
  else c.toNat - 87

/-- base36enc (not under src/; modelled from the spec: ids are base-36
encoded for directory names and PARENT_BACKUP). -/
def base36enc (n : Nat) : String := String.mk (radixChars 36 digit36 n)

/-- base36dec = strtoul(str, NULL, 36), embedded as the digit-value fold. -/
def base36dec (s : String) : Nat := radixAccum 36 b36val 0 s.toList

theorem base36dec_base36enc (n : Nat) : base36dec (base36enc n) = n := by
  have hv : ∀ d, d < 36 → b36val (digit36 d) = d := by decide
  simp only [base36dec, base36enc]
  show radixAccum 36 b36val 0 (radixChars 36 digit36 n) = n
  rw [radixAccum_radixChars 36 digit36 b36val (by omega) hv n 0]
  simp

/-- Decimal rendering of a Nat (printf %u, and the time codec model). -/
def natDec (n : Nat) : String := String.mk (radixChars 10 digit10 n)

/-- All-digits decimal parse (the pgut numeric option parsers, not under
src/, are modelled from the spec as strict decimal parsers; a failure is
fatal at the ERROR level pgut_readopt is invoked with). -/
def parseUDec (s : String) : Option Nat :=
  if s.toList ≠ [] ∧ s.toList.all (fun c => (decDigitVal c).isSome) then
    some (radixAccum 10 (fun c => (decDigitVal c).getD 0) 0 s.toList)
  else none

theorem decDigitVal_digit10_isSome : ∀ d, d < 10 → (decDigitVal (digit10 d)).isSome = true := by
  decide

theorem decDigitVal_digit10_getD : ∀ d, d < 10 → (decDigitVal (digit10 d)).getD 0 = d := by
  decide

theorem digit10_ne_minus : ∀ d, d < 10 → digit10 d ≠ '-' := by decide

theorem parseUDec_natDec (n : Nat) : parseUDec (natDec n) = some n := by
  have hmem := radixChars_mem 10 digit10 (by omega) n
  have hall : (radixChars 10 digit10 n).all (fun c => (decDigitVal c).isSome) := by
    rw [List.all_eq_true]
    intro c hc
    obtain ⟨d, hd, rfl⟩ := hmem c hc
    exact decDigitVal_digit10_isSome d hd
  show (if (natDec n).toList ≠ [] ∧ (natDec n).toList.all (fun c => (decDigitVal c).isSome)
      then some (radixAccum 10 (fun c => (decDigitVal c).getD 0) 0 (natDec n).toList)
      else none) = some n
  have htl : (natDec n).toList = radixChars 10 digit10 n := rfl
  rw [htl, if_pos ⟨radixChars_ne_nil 10 digit10 n, hall⟩]
  rw [radixAccum_radixChars 10 digit10 _ (by omega)
    (fun d hd => decDigitVal_digit10_getD d hd) n 0]
  simp

/-- printf INT64_FORMAT of an int64 value. -/
def intDec (i : Int) : String :=
  if i < 0 then "-" ++ natDec (-i).toNat else natDec i.toNat

/-- Signed decimal parse on the character list. -/
def parseIDecList : List Char → Option Int
  | [] => none
  | c :: rest =>
    if c = '-' then (parseUDec (String.mk rest)).map (fun n => -(Int.ofNat n))
    else (parseUDec (String.mk (c :: rest))).map (fun n => Int.ofNat n)

/-- Signed decimal parse (the pgut 'I' int64 option parser, modelled from the
spec as a strict decimal parser with an optional leading minus sign). -/
def parseIDec (s : String) : Option Int := parseIDecList s.toList

theorem toList_mk (l : List Char) : (String.mk l).toList = l := rfl

theorem mk_toList (s : String) : String.mk s.toList = s := rfl

theorem parseIDec_intDec (i : Int) : parseIDec (intDec i) = some i := by
  by_cases hi : i < 0
  · have h1 : (intDec i).toList = '-' :: (natDec (-i).toNat).toList := by
      simp only [intDec, if_pos hi]
      show ("-" ++ natDec (-i).toNat).data = _
      rw [String.data_append]
      rfl
    rw [parseIDec, h1, parseIDecList, if_pos rfl, mk_toList, parseUDec_natDec]
    simp only [Option.map_some', Int.ofNat_eq_coe]
    congr 1
    omega
  · have hne := radixChars_ne_nil 10 digit10 i.toNat
    rcases hh : radixChars 10 digit10 i.toNat with _ | ⟨c, rest⟩
    · exact absurd hh hne
    · have h1 : (intDec i).toList = c :: rest := by
        show (if i < 0 then "-" ++ natDec (-i).toNat else natDec i.toNat).toList = c :: rest
        rw [if_neg hi]
        show radixChars 10 digit10 i.toNat = c :: rest
        exact hh
      have hcd : ∃ d, d < 10 ∧ c = digit10 d := by
        apply radixChars_mem 10 digit10 (by omega) i.toNat
        rw [hh]; exact List.mem_cons_self _ _
      obtain ⟨d, hd, rfl⟩ := hcd
      have hcne : digit10 d ≠ '-' := digit10_ne_minus d hd
      rw [parseIDec, h1, parseIDecList, if_neg hcne]
      have h2 : String.mk (digit10 d :: rest) = natDec i.toNat := by
        show String.mk (digit10 d :: rest) = String.mk (radixChars 10 digit10 i.toNat)
        rw [hh]
      rw [h2, parseUDec_natDec]
      simp only [Option.map_some', Int.ofNat_eq_coe]
      congr 1
      omega

/-! ## LSN text form: "%x/%08x" writing, sscanf "%X/%X" parsing -/

/-- isspace over the character code: space, \t, \n, \v, \f, \r. -/
def isSpaceChar (c : Char) : Bool :=
  c.toNat == 32 || c.toNat == 9 || c.toNat == 10 || c.toNat == 11 ||
  c.toNat == 12 || c.toNat == 13

/-- Greedy hex-digit consumption with accumulator (the core of one %X
conversion); stops at the first non-hex character. -/
def takeHexAux (acc : Nat) : List Char → Nat × List Char
  | [] => (acc, [])
  | c :: cs =>
    match hexDigitVal c with
    | some d => takeHexAux (acc * 16 + d) cs
    | none => (acc, c :: cs)

/-- One %X conversion: fails unless at least one hex digit is present. -/
def takeHex (l : List Char) : Option (Nat × List Char) :=
  match l with
  | [] => none
  | c :: _ => if (hexDigitVal c).isSome then some (takeHexAux 0 l) else none

/-- sscanf(value, "%X/%X", &xlogid, &xrecoff) == 2: two hex conversions
separated by a literal slash, each stored into a uint32 (hence the mod 2^32);
trailing characters are ignored, as sscanf ignores them. -/
def scanTwoHex (s : String) : Option (Nat × Nat) :=
  match takeHex (s.toList.dropWhile isSpaceChar) with
  | none => none
  | some (a, rest) =>
    match rest with
    | '/' :: rest2 =>
      match takeHex (rest2.dropWhile isSpaceChar) with
      | none => none
      | some (b, _) => some (a % 2 ^ 32, b % 2 ^ 32)
    | _ => none

/-- The "%x/%08x" rendering of an LSN from pgBackupWriteResultSection: the
high half (uint32)(lsn >> 32), a slash, then the low half (uint32)lsn
zero-padded to eight hex digits. -/
def lsnStr (lsn : Nat) : String :=
  let hi := (lsn >>> 32) % 2 ^ 32
  let lo := lsn % 2 ^ 32
  let lochars := radixChars 16 digit16 lo
  String.mk (radixChars 16 digit16 hi ++ '/' :: (List.replicate (8 - lochars.length) '0' ++ lochars))

/-- The merge `((uint64) xlogid << 32) | xrecoff` of catalog_read_ini.  Both
halves are below 2^32 (scanTwoHex reduces them), so the bitwise or of the
disjoint halves coincides with this sum. -/
def mergeLsn (hi lo : Nat) : Nat := hi * 2 ^ 32 + lo

theorem hexDigitVal_digit16_isSome : ∀ d, d < 16 → (hexDigitVal (digit16 d)).isSome = true := by
  decide

theorem hexDigitVal_digit16_getD : ∀ d, d < 16 → (hexDigitVal (digit16 d)).getD 0 = d := by
  decide

/-- A hex digit is never whitespace. -/
theorem hex_not_space (c : Char) (h : (hexDigitVal c).isSome = true) : isSpaceChar c = false := by
  have hr : (48 ≤ c.toNat ∧ c.toNat ≤ 57) ∨ (65 ≤ c.toNat ∧ c.toNat ≤ 70)
      ∨ (97 ≤ c.toNat ∧ c.toNat ≤ 102) := by
    unfold hexDigitVal at h
    split_ifs at h with h1 h2 h3
    · exact Or.inl h1
    · exact Or.inr (Or.inl h2)
    · exact Or.inr (Or.inr h3)
    · simp at h
  simp only [isSpaceChar, Bool.or_eq_false_iff, beq_eq_false_iff_ne, ne_eq]
  omega

theorem dropWhile_space_of_hex_head (l : List Char)
    (h : ∀ c m, l = c :: m → (hexDigitVal c).isSome = true) :
    List.dropWhile isSpaceChar l = l := by
  rcases l with _ | ⟨c, m⟩
  · rfl
  · rw [List.dropWhile_cons, hex_not_space c (h c m rfl)]
    simp

theorem takeHexAux_append (rest : List Char) (hrest : ∀ c l, rest = c :: l → hexDigitVal c = none) :
    ∀ (xs : List Char), (∀ c ∈ xs, (hexDigitVal c).isSome = true) → ∀ acc,
    takeHexAux acc (xs ++ rest)
      = (radixAccum 16 (fun c => (hexDigitVal c).getD 0) acc xs, rest) := by
  intro xs
  induction xs with
  | nil =>
    intro hxs acc
    rcases rest with _ | ⟨c, l⟩
    · rfl
    · simp only [List.nil_append, takeHexAux, hrest c l rfl, radixAccum_nil]
  | cons x xs ih =>
    intro hxs acc
    have hx : (hexDigitVal x).isSome = true := hxs x (List.mem_cons_self _ _)
    rcases hv : hexDigitVal x with _ | d
    · rw [hv] at hx; simp at hx
    · simp only [List.cons_append, takeHexAux, hv]
      show takeHexAux (acc * 16 + d) (xs ++ rest) = _
      rw [ih (fun c hc => hxs c (List.mem_cons_of_mem _ hc)) (acc * 16 + d)]
      simp only [radixAccum, List.foldl_cons, hv, Option.getD_some]

/-- All characters emitted by the hex renderer are hex digits. -/
theorem hexChars_all_hex (n : Nat) :
    ∀ c ∈ radixChars 16 digit16 n, (hexDigitVal c).isSome = true := by
  intro c hc
  obtain ⟨d, hd, rfl⟩ := radixChars_mem 16 digit16 (by omega) n c hc
  exact hexDigitVal_digit16_isSome d hd

/-- One %X conversion over an all-hex nonempty segment followed by a
non-hex-headed remainder consumes exactly the segment. -/
theorem takeHex_append (xs rest : List Char) (hne : xs ≠ [])
    (hxs : ∀ c ∈ xs, (hexDigitVal c).isSome = true)
    (hrest : ∀ c l, rest = c :: l → hexDigitVal c = none) :
    takeHex (xs ++ rest)
      = some (radixAccum 16 (fun c => (hexDigitVal c).getD 0) 0 xs, rest) := by
  rcases xs with _ | ⟨c0, m0⟩
  · exact absurd rfl hne
  · rw [List.cons_append, takeHex, if_pos (hxs c0 (List.mem_cons_self _ _)), ← List.cons_append]
    rw [takeHexAux_append rest hrest _ hxs 0]

theorem radixAccum_zeros (b : Nat) (val : Char → Nat) (hz : val '0' = 0) :
    ∀ k, radixAccum b val 0 (List.replicate k '0') = 0 := by
  intro k
  induction k with
  | zero => rfl
  | succ k ih =>
    simp only [List.replicate_succ, radixAccum, List.foldl_cons, hz]
    simpa [radixAccum] using ih

/-- Hex value of the zero-padded digit list of n is n. -/
theorem radixAccum_padded_hex (n k : Nat) :
    radixAccum 16 (fun c => (hexDigitVal c).getD 0)
      0 (List.replicate k '0' ++ radixChars 16 digit16 n) = n := by
  rw [radixAccum_append]
  rw [radixAccum_zeros 16 _ rfl k]
  rw [radixAccum_radixChars 16 digit16 _ (by omega) (fun d hd => hexDigitVal_digit16_getD d hd) n 0]
  simp

/-- Round trip of the LSN text form: parsing the written "%x/%08x" string
recovers exactly the two 32-bit halves. -/
theorem scanTwoHex_lsnStr (lsn : Nat) (h : lsn < 2 ^ 64) :
    scanTwoHex (lsnStr lsn) = some (lsn >>> 32, lsn % 2 ^ 32) := by
  have hhi : lsn >>> 32 < 2 ^ 32 := by
    rw [Nat.shiftRight_eq_div_pow]
    omega
  have hhi' : (lsn >>> 32) % 2 ^ 32 = lsn >>> 32 := Nat.mod_eq_of_lt hhi
  have hlo : lsn % 2 ^ 32 < 2 ^ 32 := Nat.mod_lt _ (by norm_num)
  set hi := lsn >>> 32 with hdefhi
  set lo := lsn % 2 ^ 32 with hdeflo
  set low := List.replicate (8 - (radixChars 16 digit16 lo).length) '0'
    ++ radixChars 16 digit16 lo with hdeflow
  have hlowall : ∀ c ∈ low, (hexDigitVal c).isSome = true := by
    intro c hc
    rcases List.mem_append.1 hc with h1 | h1
    · rw [List.eq_of_mem_replicate h1]; rfl
    · exact hexChars_all_hex lo c h1
  have hlowne : low ≠ [] := by
    intro hcon
    rw [hdeflow] at hcon
    exact radixChars_ne_nil 16 digit16 lo (List.append_eq_nil.1 hcon).2
  have htl : (lsnStr lsn).toList = radixChars 16 digit16 hi ++ '/' :: low := by
    simp only [lsnStr, toList_mk, hhi']
  rw [scanTwoHex, htl]
  have hhexhi := hexChars_all_hex hi
  have hdw1 : List.dropWhile isSpaceChar (radixChars 16 digit16 hi ++ '/' :: low)
      = radixChars 16 digit16 hi ++ '/' :: low := by
    apply dropWhile_space_of_hex_head
    intro c m hcm
    rcases he : radixChars 16 digit16 hi with _ | ⟨c0, m0⟩
    · exact absurd he (radixChars_ne_nil 16 digit16 hi)
    · rw [he, List.cons_append] at hcm
      injection hcm with hc1 hc2
      apply hhexhi
      rw [he, ← hc1]
      exact List.mem_cons_self _ _
  rw [hdw1]
  rw [takeHex_append _ _ (radixChars_ne_nil 16 digit16 hi) hhexhi
    (by intro c l hcl; injection hcl with hc1 hc2; rw [← hc1]; rfl)]
  rw [radixAccum_radixChars 16 digit16 _ (by omega) (fun d hd => hexDigitVal_digit16_getD d hd) hi 0]
  simp only [zero_mul, zero_add]
  have hdw2 : List.dropWhile isSpaceChar low = low := by
    apply dropWhile_space_of_hex_head
    intro c m hcm
    apply hlowall
    rw [hcm]
    exact List.mem_cons_self _ _
  rw [hdw2]
  have hth2 : takeHex low = some (lo, []) := by
    have := takeHex_append low [] hlowne hlowall (by intro c l hcl; cases hcl)
    rw [List.append_nil] at this
    rw [this, hdeflow, radixAccum_padded_hex]
  rw [hth2]
  simp [Nat.mod_eq_of_lt hlo]
  omega

/-! ## Metadata Codec: backup.ini writing and reading

A backup.ini file is embedded as its ordered list of KEY=VALUE pairs (the
line-level syntax — '=' splitting, quote stripping, ';' comments — is handled
by pgut's parse_pair, not under src/, and is modelled from the spec as
already-split pairs). -/

/-- The modes[] table of pgBackupWriteConfigSection:
`{"", "PAGE", "PTRACK", "FULL"}` indexed by the mode ordinal. -/
def modeStr : BackupMode → String
  | .BACKUP_MODE_INVALID => ""
  | .BACKUP_MODE_DIFF_PAGE => "PAGE"
  | .BACKUP_MODE_DIFF_PTRACK => "PTRACK"
  | .BACKUP_MODE_FULL => "FULL"

/-- Modelled from the spec: status2str is not under src/; the status names
are the fixed table that catalog_read_ini recognizes, and a status outside
the named ones renders as a string outside that table. -/
def status2str : BackupStatus → String
  | .BACKUP_STATUS_INVALID => "UNKNOWN"
  | .BACKUP_STATUS_OK => "OK"
  | .BACKUP_STATUS_RUNNING => "RUNNING"
  | .BACKUP_STATUS_ERROR => "ERROR"
  | .BACKUP_STATUS_DELETING => "DELETING"
  | .BACKUP_STATUS_DELETED => "DELETED"
  | .BACKUP_STATUS_DONE => "DONE"
  | .BACKUP_STATUS_CORRUPT => "CORRUPT"

/-- The STATUS string table of catalog_read_ini (the if/else chain on the
status value); an unrecognized value yields none (soft failure). -/
def decodeStatus (s : String) : Option BackupStatus :=
  if s = "OK" then some .BACKUP_STATUS_OK
  else if s = "RUNNING" then some .BACKUP_STATUS_RUNNING
  else if s = "ERROR" then some .BACKUP_STATUS_ERROR
  else if s = "DELETING" then some .BACKUP_STATUS_DELETING
  else if s = "DELETED" then some .BACKUP_STATUS_DELETED
  else if s = "DONE" then some .BACKUP_STATUS_DONE
  else if s = "CORRUPT" then some .BACKUP_STATUS_CORRUPT
  else none

/-- Prefix test on character lists (strncasecmp's shape: the comparison stops
after the pattern's length). -/
def strPre : List Char → List Char → Bool
  | [], _ => true
  | _ :: _, [] => false
  | a :: as, b :: bs => a == b && strPre as bs

/-- parse_backup_mode: skip leading spaces, then case-insensitive prefix
comparison against "full", "page", "ptrack"; an empty or unmatched value is
the hard elog(ERROR) failure. -/
def parse_backup_mode (value : String) : Except String BackupMode :=
  let v := value.toList.dropWhile isSpaceChar
  let lv := v.map Char.toLower
  if v.length > 0 && strPre "full".toList lv then .ok .BACKUP_MODE_FULL
  else if v.length > 0 && strPre "page".toList lv then .ok .BACKUP_MODE_DIFF_PAGE
  else if v.length > 0 && strPre "ptrack".toList lv then .ok .BACKUP_MODE_DIFF_PTRACK
  else .error ("invalid backup-mode \"" ++ value ++ "\"")

/-- pgut option-name matching (key_equals): case-insensitive with '-' and '_'
identified (pgut is not under src/; modelled from the spec's fixed key set,
whose ini spellings use '_' and upper case while the option table uses '-'). -/
def normKey (s : String) : List Char :=
  s.toList.map (fun c => if c = '-' then '_' else c.toLower)

def keyMatch (k lname : String) : Bool := normKey k == normKey lname

/-- The in-flight state of catalog_read_ini: the five string-typed option
slots plus the directly-assigned record fields. -/
structure RawIni where
  backup_mode : Option String
  start_lsn : Option String
  stop_lsn : Option String
  status : Option String
  parent_backup : Option String
  b : pgBackup
deriving DecidableEq, Repr

/-- Processing of one KEY=VALUE line against the pgut option table of
catalog_read_ini, in table order; unknown keys are ignored, and a numeric
value that does not parse is fatal (pgut_readopt runs at the ERROR level).
The bool field stream receives a uint32 as the C does (nonzero = true). -/
def readIniLine (r : RawIni) (kv : String × String) : Except String RawIni :=
  let k := kv.1
  let v := kv.2
  if keyMatch k "backup-mode" then .ok { r with backup_mode := some v }
  else if keyMatch k "timelineid" then
    match parseUDec v with
    | some n => .ok { r with b := { r.b with tli := n } }
    | none => .error ("invalid value \"" ++ v ++ "\"")
  else if keyMatch k "start-lsn" then .ok { r with start_lsn := some v }
  else if keyMatch k "stop-lsn" then .ok { r with stop_lsn := some v }
  else if keyMatch k "start-time" then
    match parseUDec v with
    | some n => .ok { r with b := { r.b with start_time := n } }
    | none => .error ("invalid value \"" ++ v ++ "\"")
  else if keyMatch k "end-time" then
    match parseUDec v with
    | some n => .ok { r with b := { r.b with end_time := n } }
    | none => .error ("invalid value \"" ++ v ++ "\"")
  else if keyMatch k "recovery-xid" then
    match parseUDec v with
    | some n => .ok { r with b := { r.b with recovery_xid := n } }
    | none => .error ("invalid value \"" ++ v ++ "\"")
  else if keyMatch k "recovery-time" then
    match parseUDec v with
    | some n => .ok { r with b := { r.b with recovery_time := n } }
    | none => .error ("invalid value \"" ++ v ++ "\"")
  else if keyMatch k "data-bytes" then
    match parseIDec v with
    | some n => .ok { r with b := { r.b with data_bytes := n } }
    | none => .error ("invalid value \"" ++ v ++ "\"")
  else if keyMatch k "block-size" then
    match parseUDec v with
    | some n => .ok { r with b := { r.b with block_size := n } }
    | none => .error ("invalid value \"" ++ v ++ "\"")
  else if keyMatch k "xlog-block-size" then
    match parseUDec v with
    | some n => .ok { r with b := { r.b with wal_block_size := n } }
    | none => .error ("invalid value \"" ++ v ++ "\"")
  else if keyMatch k "checksum_version" then
    match parseUDec v with
    | some n => .ok { r with b := { r.b with checksum_version := n } }
    | none => .error ("invalid value \"" ++ v ++ "\"")
  else if keyMatch k "stream" then
    match parseUDec v with
    | some n => .ok { r with b := { r.b with stream := n != 0 } }
    | none => .error ("invalid value \"" ++ v ++ "\"")
  else if keyMatch k "status" then .ok { r with status := some v }
  else if keyMatch k "parent_backup" then .ok { r with parent_backup := some v }
  else .ok r

/-- Result of reading one backup.ini. -/
inductive ReadResult
  | absent
  | fatal (msg : String)
  | ok (b : pgBackup) (warnings : List String)
deriving DecidableEq, Repr

/-- The post-scan fixups of catalog_read_ini: backup mode (hard failure),
the two LSNs (soft: warn and keep the zero default), status (soft), and the
base-36 parent id. -/
def readIniPost (raw : RawIni) : ReadResult :=
  let mode : Except String pgBackup :=
    match raw.backup_mode with
    | none => .ok raw.b
    | some m =>
      match parse_backup_mode m with
      | .error e => .error e
      | .ok md => .ok { raw.b with backup_mode := md }
  match mode with
  | .error e => .fatal e
  | .ok b1 =>
    let s2 : pgBackup × List String :=
      match raw.start_lsn with
      | none => (b1, [])
      | some s =>
        match scanTwoHex s with
        | some (hi, lo) => ({ b1 with start_lsn := mergeLsn hi lo }, [])
        | none => (b1, ["invalid START_LSN \"" ++ s ++ "\""])
    let s3 : pgBackup × List String :=
      match raw.stop_lsn with
      | none => s2
      | some s =>
        match scanTwoHex s with
        | some (hi, lo) => ({ s2.1 with stop_lsn := mergeLsn hi lo }, s2.2)
        | none => (s2.1, s2.2 ++ ["invalid STOP_LSN \"" ++ s ++ "\""])
    let s4 : pgBackup × List String :=
      match raw.status with
      | none => s3
      | some s =>
        match decodeStatus s with
        | some st => ({ s3.1 with status := st }, s3.2)
        | none => (s3.1, s3.2 ++ ["invalid STATUS \"" ++ s ++ "\""])
    let s5 : pgBackup × List String :=
      match raw.parent_backup with
      | none => s4
      | some s => ({ s4.1 with parent_backup := base36dec s }, s4.2)
    .ok s5.1 s5.2

/-- catalog_read_ini: none stands for an absent metadata file (the access()
check returns NULL, the "not found" outcome); otherwise the option scan
followed by the fixups. -/
def catalog_read_ini (file : Option (List (String × String))) : ReadResult :=
  match file with
  | none => .absent
  | some lines =>
    match lines.foldlM readIniLine ⟨none, none, none, none, none, catalog_init_config⟩ with
    | .error e => .fatal e
    | .ok raw => readIniPost raw

/-- The record produced by a successful read. -/
def readBackup : ReadResult → Option pgBackup
  | .ok b _ => some b
  | _ => none

/-- The warnings produced by a successful read. -/
def readWarnings : ReadResult → List String
  | .ok _ w => w
  | _ => []

/-- printf %d of a uint32 (TIMELINEID is written with %d): values at or
above 2^31 would print as negative two's-complement text. -/
def uintAsIntDec (n : Nat) : String :=
  if n < 2 ^ 31 then natDec n else "-" ++ natDec (2 ^ 32 - n % 2 ^ 32)

/-- The backup.ini contents written by pgBackupWriteIni: the configuration
section (pgBackupWriteConfigSection) followed by the result section
(pgBackupWriteResultSection), as ordered KEY=VALUE pairs.  The ISO timestamp
codec (time2iso, not under src/) is modelled from the spec as a decimal
rendering of the time_t value, with the reader's parser as its exact
inverse. -/
def pgBackupWriteIni (b : pgBackup) : List (String × String) :=
  [("BACKUP_MODE", modeStr b.backup_mode),
   ("TIMELINEID", uintAsIntDec b.tli),
   ("START_LSN", lsnStr b.start_lsn),
   ("STOP_LSN", lsnStr b.stop_lsn),
   ("START_TIME", natDec b.start_time)]
  ++ (if 0 < b.end_time then [("END_TIME", natDec b.end_time)] else [])
  ++ [("RECOVERY_XID", natDec b.recovery_xid)]
  ++ (if 0 < b.recovery_time then [("RECOVERY_TIME", natDec b.recovery_time)] else [])
  ++ (if b.data_bytes ≠ BYTES_INVALID then [("DATA_BYTES", intDec b.data_bytes)] else [])
  ++ [("BLOCK_SIZE", natDec b.block_size),
      ("XLOG_BLOCK_SIZE", natDec b.wal_block_size),
      ("CHECKSUM_VERSION", natDec b.checksum_version),
      ("STREAM", natDec (if b.stream then 1 else 0)),
      ("STATUS", status2str b.status)]
  ++ (if b.parent_backup ≠ 0 then [("PARENT_BACKUP", base36enc b.parent_backup)] else [])

/-- A concrete round-trip check record. -/
def sampleBackup : pgBackup :=
  { catalog_init_config with
    backup_mode := .BACKUP_MODE_FULL
    status := .BACKUP_STATUS_OK
    tli := 1
    start_lsn := 0x0000000189ABCDEF
    start_time := 100
    parent_backup := 99 }

theorem sampleBackup_round_trip :
    readBackup (catalog_read_ini (some (pgBackupWriteIni sampleBackup)))
      = some sampleBackup := by decide

theorem lsnStr_sample : lsnStr 0x0000000189ABCDEF = "1/89abcdef" := by decide

/-! ## Codec round-trip lemmas (claim C2) -/

theorem parse_backup_mode_modeStr (m : BackupMode) (h : m ≠ .BACKUP_MODE_INVALID) :
    parse_backup_mode (modeStr m) = .ok m := by
  cases m
  · exact absurd rfl h
  · rfl
  · rfl
  · rfl

theorem decodeStatus_status2str (s : BackupStatus) (h : s ≠ .BACKUP_STATUS_INVALID) :
    decodeStatus (status2str s) = some s := by
  cases s
  · exact absurd rfl h
  all_goals decide

theorem mergeLsn_split (lsn : Nat) (h : lsn < 2 ^ 64) :
    mergeLsn (lsn >>> 32) (lsn % 2 ^ 32) = lsn := by
  simp only [mergeLsn, Nat.shiftRight_eq_div_pow]
  omega

theorem streamBit (s : Bool) : ((if s then (1 : Nat) else 0) != 0) = s := by
  cases s <;> rfl

theorem rl_mode (r : RawIni) (v : String) :
    readIniLine r ("BACKUP_MODE", v) = .ok { r with backup_mode := some v } := by
  simp +decide [readIniLine]

theorem rl_tli (r : RawIni) (n : Nat) :
    readIniLine r ("TIMELINEID", natDec n) = .ok { r with b := { r.b with tli := n } } := by
  simp +decide [readIniLine, parseUDec_natDec]

theorem rl_slsn (r : RawIni) (v : String) :
    readIniLine r ("START_LSN", v) = .ok { r with start_lsn := some v } := by
  simp +decide [readIniLine]

theorem rl_plsn (r : RawIni) (v : String) :
    readIniLine r ("STOP_LSN", v) = .ok { r with stop_lsn := some v } := by
  simp +decide [readIniLine]

theorem rl_stime (r : RawIni) (n : Nat) :
    readIniLine r ("START_TIME", natDec n) = .ok { r with b := { r.b with start_time := n } } := by
  simp +decide [readIniLine, parseUDec_natDec]

theorem rl_etime (r : RawIni) (n : Nat) :
    readIniLine r ("END_TIME", natDec n) = .ok { r with b := { r.b with end_time := n } } := by
  simp +decide [readIniLine, parseUDec_natDec]

theorem rl_rxid (r : RawIni) (n : Nat) :
    readIniLine r ("RECOVERY_XID", natDec n) = .ok { r with b := { r.b with recovery_xid := n } } := by
  simp +decide [readIniLine, parseUDec_natDec]

theorem rl_rtime (r : RawIni) (n : Nat) :
    readIniLine r ("RECOVERY_TIME", natDec n) = .ok { r with b := { r.b with recovery_time := n } } := by
  simp +decide [readIniLine, parseUDec_natDec]

theorem rl_dbytes (r : RawIni) (i : Int) :
    readIniLine r ("DATA_BYTES", intDec i) = .ok { r with b := { r.b with data_bytes := i } } := by
  simp +decide [readIniLine, parseIDec_intDec]

theorem rl_bsz (r : RawIni) (n : Nat) :
    readIniLine r ("BLOCK_SIZE", natDec n) = .ok { r with b := { r.b with block_size := n } } := by
  simp +decide [readIniLine, parseUDec_natDec]

theorem rl_wbsz (r : RawIni) (n : Nat) :
    readIniLine r ("XLOG_BLOCK_SIZE", natDec n)
      = .ok { r with b := { r.b with wal_block_size := n } } := by
  simp +decide [readIniLine, parseUDec_natDec]

theorem rl_cver (r : RawIni) (n : Nat) :
    readIniLine r ("CHECKSUM_VERSION", natDec n)
      = .ok { r with b := { r.b with checksum_version := n } } := by
  simp +decide [readIniLine, parseUDec_natDec]

theorem rl_stream (r : RawIni) (n : Nat) :
    readIniLine r ("STREAM", natDec n) = .ok { r with b := { r.b with stream := n != 0 } } := by
  simp +decide [readIniLine, parseUDec_natDec]

theorem rl_status (r : RawIni) (v : String) :
    readIniLine r ("STATUS", v) = .ok { r with status := some v } := by
  simp +decide [readIniLine]

theorem rl_parent (r : RawIni) (v : String) :
    readIniLine r ("PARENT_BACKUP", v) = .ok { r with parent_backup := some v } := by
  simp +decide [readIniLine]

theorem ds_unknown : decodeStatus "UNKNOWN" = none := rfl

set_option maxHeartbeats 1600000 in
/-- C2, amended: write-then-read reproduces every field exactly for every
record whose backup_mode is not INVALID (a mode-INVALID record is written
with an empty BACKUP_MODE value, which the reader rejects fatally) and whose
timeline id, being printed with %d, fits in a signed 32-bit int, with the
64-bit LSNs in range; DATA_BYTES is omitted when unset, END_TIME and
RECOVERY_TIME are omitted when zero, PARENT_BACKUP is omitted when zero, and
the read defaults restore exactly those omitted values. -/
theorem C2_write_read_round_trip (r : pgBackup)
    (hmode : r.backup_mode ≠ .BACKUP_MODE_INVALID)
    (htli : r.tli < 2 ^ 31)
    (hsl : r.start_lsn < 2 ^ 64)
    (hst : r.stop_lsn < 2 ^ 64) :
    readBackup (catalog_read_ini (some (pgBackupWriteIni r))) = some r
    ∧ (r.data_bytes = BYTES_INVALID → "DATA_BYTES" ∉ (pgBackupWriteIni r).map Prod.fst)
    ∧ (r.end_time = 0 → "END_TIME" ∉ (pgBackupWriteIni r).map Prod.fst)
    ∧ (r.recovery_time = 0 → "RECOVERY_TIME" ∉ (pgBackupWriteIni r).map Prod.fst)
    ∧ (r.parent_backup = 0 → "PARENT_BACKUP" ∉ (pgBackupWriteIni r).map Prod.fst) := by
  obtain ⟨mode, st, tli, slsn, plsn, stime, etime, rxid, rtime, dbytes, bsz, wbsz, cver, strm, par⟩ := r
  simp only at hmode htli hsl hst
  have hpm := parse_backup_mode_modeStr mode hmode
  have hscan1 := scanTwoHex_lsnStr slsn hsl
  have hscan2 := scanTwoHex_lsnStr plsn hst
  have htl : uintAsIntDec tli = natDec tli := by rw [uintAsIntDec, if_pos htli]
  refine ⟨?_, ?_, ?_, ?_, ?_⟩
  · by_cases h0 : st = .BACKUP_STATUS_INVALID
    · subst h0
      by_cases h1 : 0 < etime <;> by_cases h2 : 0 < rtime <;>
        by_cases h3 : dbytes = (-1 : Int) <;> by_cases h4 : par = 0 <;>
        simp +decide [pgBackupWriteIni, catalog_read_ini, catalog_init_config,
          List.foldlM, Bind.bind, Except.bind, Pure.pure, Except.pure, htl,
          rl_mode, rl_tli, rl_slsn, rl_plsn, rl_stime, rl_etime, rl_rxid, rl_rtime,
          rl_dbytes, rl_bsz, rl_wbsz, rl_cver, rl_stream, rl_status, rl_parent,
          readIniPost, readBackup, hpm, hscan1, hscan2, mergeLsn, status2str,
          ds_unknown, base36dec_base36enc, streamBit, BYTES_INVALID,
          pgBackup.mk.injEq, h1, h2, h3, h4] <;>
        omega
    · have hds := decodeStatus_status2str st h0
      by_cases h1 : 0 < etime <;> by_cases h2 : 0 < rtime <;>
        by_cases h3 : dbytes = (-1 : Int) <;> by_cases h4 : par = 0 <;>
        simp +decide [pgBackupWriteIni, catalog_read_ini, catalog_init_config,
          List.foldlM, Bind.bind, Except.bind, Pure.pure, Except.pure, htl,
          rl_mode, rl_tli, rl_slsn, rl_plsn, rl_stime, rl_etime, rl_rxid, rl_rtime,
          rl_dbytes, rl_bsz, rl_wbsz, rl_cver, rl_stream, rl_status, rl_parent,
          readIniPost, readBackup, hpm, hds, hscan1, hscan2, mergeLsn,
          base36dec_base36enc, streamBit, BYTES_INVALID, pgBackup.mk.injEq,
          h1, h2, h3, h4] <;>
        omega
  · intro hdb hmem
    simp only at hdb
    simp only [pgBackupWriteIni] at hmem
    split_ifs at hmem <;> simp +decide at hmem <;> omega
  · intro hdb hmem
    simp only at hdb
    simp only [pgBackupWriteIni] at hmem
    split_ifs at hmem <;> simp +decide at hmem <;> omega
  · intro hdb hmem
    simp only at hdb
    simp only [pgBackupWriteIni] at hmem
    split_ifs at hmem <;> simp +decide at hmem <;> omega
  · intro hdb hmem
    simp only at hdb
    simp only [pgBackupWriteIni] at hmem
    split_ifs at hmem <;> simp +decide at hmem <;> omega

/-- C2 counterexample: the claim as stated covers every record, including one
per mode; a record with mode INVALID (here the default-initialized record) is
written with an empty BACKUP_MODE value, which the reader rejects fatally, so
write-then-read does not reproduce it. -/
theorem C2_counterexample_mode_INVALID :
    catalog_read_ini (some (pgBackupWriteIni catalog_init_config))
      = .fatal "invalid backup-mode \"\""
    ∧ readBackup (catalog_read_ini (some (pgBackupWriteIni catalog_init_config)))
      ≠ some catalog_init_config := by
  decide

/-- C2 witness: the amended round trip at a concrete record exercising the
LSN split/merge of the claim (0x0000000189ABCDEF ⇄ "1/89abcdef") and a
base-36-encoded parent id. -/
theorem C2_witness :
    readBackup (catalog_read_ini (some (pgBackupWriteIni sampleBackup))) = some sampleBackup
    ∧ lsnStr sampleBackup.start_lsn = "1/89abcdef" := by
  refine ⟨(C2_write_read_round_trip sampleBackup (by decide) (by decide) (by decide)
    (by decide)).1, by decide⟩

set_option maxHeartbeats 800000 in
/-- C5: when decoding one metadata file, a malformed START_LSN or STOP_LSN
value is a soft failure — a warning is recorded, the LSN keeps its default
zero, and the other keys of the record are still decoded — an unrecognized
STATUS value is likewise a soft failure (warning, default status kept), but
an unrecognized BACKUP_MODE value aborts the whole read fatally. -/
theorem C5_soft_and_hard_failures (sl ss st bm : String)
    (hsl : scanTwoHex sl = none) (hss : scanTwoHex ss = none)
    (hst : decodeStatus st = none)
    (e : String) (hbm : parse_backup_mode bm = .error e) :
    catalog_read_ini (some [("START_LSN", sl), ("STOP_LSN", ss), ("STATUS", st),
        ("TIMELINEID", natDec 7), ("BACKUP_MODE", modeStr .BACKUP_MODE_FULL)])
      = .ok { catalog_init_config with backup_mode := .BACKUP_MODE_FULL, tli := 7 }
          ["invalid START_LSN \"" ++ sl ++ "\"", "invalid STOP_LSN \"" ++ ss ++ "\"",
           "invalid STATUS \"" ++ st ++ "\""]
    ∧ catalog_read_ini (some [("BACKUP_MODE", bm), ("TIMELINEID", natDec 7)])
      = .fatal e := by
  constructor
  · simp +decide [catalog_read_ini, List.foldlM, Bind.bind, Except.bind, Pure.pure,
      Except.pure, rl_mode, rl_tli, rl_slsn, rl_plsn, rl_status, readIniPost,
      hsl, hss, hst, parse_backup_mode_modeStr, catalog_init_config]
  · simp +decide [catalog_read_ini, List.foldlM, Bind.bind, Except.bind, Pure.pure,
      Except.pure, rl_mode, rl_tli, readIniPost, hbm]

/-- C5 witness: the soft/hard failure behavior at concrete malformed values. -/
theorem C5_witness :
    catalog_read_ini (some [("START_LSN", "xyz"), ("STOP_LSN", "g/1"), ("STATUS", "BOGUS"),
        ("TIMELINEID", natDec 7), ("BACKUP_MODE", modeStr .BACKUP_MODE_FULL)])
      = .ok { catalog_init_config with backup_mode := .BACKUP_MODE_FULL, tli := 7 }
          ["invalid START_LSN \"" ++ "xyz" ++ "\"", "invalid STOP_LSN \"" ++ "g/1" ++ "\"",
           "invalid STATUS \"" ++ "BOGUS" ++ "\""]
    ∧ catalog_read_ini (some [("BACKUP_MODE", "NOPE"), ("TIMELINEID", natDec 7)])
      = .fatal "invalid backup-mode \"NOPE\"" := by
  exact C5_soft_and_hard_failures "xyz" "g/1" "BOGUS" "NOPE" rfl rfl rfl
    "invalid backup-mode \"NOPE\"" rfl

/-! ## Catalog Store: listing and sorting (catalog_get_backup_list) -/

/-- pgBackupCompareId: compare two records by id (start_time), ascending. -/
def pgBackupCompareId (l r : pgBackup) : Int :=
  if r.start_time < l.start_time then 1
  else if l.start_time < r.start_time then -1
  else 0

/-- pgBackupCompareIdDesc: the negated comparison, descending. -/
def pgBackupCompareIdDesc (l r : pgBackup) : Int := - pgBackupCompareId l r

/-- Ordered insertion under a comparator (b goes before the first element it
does not compare greater than). -/
def insertByCmp (cmp : pgBackup → pgBackup → Int) (b : pgBackup) :
    List pgBackup → List pgBackup
  | [] => [b]
  | x :: xs => if cmp b x ≤ 0 then b :: x :: xs else x :: insertByCmp cmp b xs

/-- parray_qsort: of qsort's contract only the resulting order matters to the
code, so the sort is embedded as insertion sort under the comparator. -/
def parray_qsort (cmp : pgBackup → pgBackup → Int) (l : List pgBackup) : List pgBackup :=
  l.foldr (insertByCmp cmp) []

theorem insertByCmp_perm (cmp : pgBackup → pgBackup → Int) (b : pgBackup) :
    ∀ l, (insertByCmp cmp b l).Perm (b :: l) := by
  intro l
  induction l with
  | nil => exact List.Perm.refl _
  | cons x xs ih =>
    rw [insertByCmp]
    split
    · exact List.Perm.refl _
    · exact (ih.cons x).trans (List.Perm.swap _ _ _)

theorem parray_qsort_perm (cmp : pgBackup → pgBackup → Int) :
    ∀ l, (parray_qsort cmp l).Perm l := by
  intro l
  induction l with
  | nil => exact List.Perm.refl _
  | cons x xs ih =>
    exact (insertByCmp_perm cmp x (parray_qsort cmp xs)).trans (ih.cons x)

theorem insertByCmp_pairwise (cmp : pgBackup → pgBackup → Int)
    (htot : ∀ a b, ¬ cmp a b ≤ 0 → cmp b a ≤ 0)
    (htrans : ∀ a b c, cmp a b ≤ 0 → cmp b c ≤ 0 → cmp a c ≤ 0)
    (b : pgBackup) :
    ∀ l, l.Pairwise (fun x y => cmp x y ≤ 0) →
      (insertByCmp cmp b l).Pairwise (fun x y => cmp x y ≤ 0) := by
  intro l
  induction l with
  | nil => intro _; simp [insertByCmp]
  | cons x xs ih =>
    intro h
    rw [insertByCmp]
    rcases List.pairwise_cons.1 h with ⟨hx, hxs⟩
    split
    · rename_i hc
      refine List.pairwise_cons.2 ⟨?_, h⟩
      intro y hy
      rcases List.mem_cons.1 hy with rfl | hy2
      · exact hc
      · exact htrans b x y hc (hx y hy2)
    · rename_i hc
      refine List.pairwise_cons.2 ⟨?_, ih hxs⟩
      intro y hy
      have := (insertByCmp_perm cmp b xs).mem_iff.1 hy
      rcases List.mem_cons.1 this with rfl | hy2
      · exact htot y x hc
      · exact hx y hy2

theorem parray_qsort_pairwise (cmp : pgBackup → pgBackup → Int)
    (htot : ∀ a b, ¬ cmp a b ≤ 0 → cmp b a ≤ 0)
    (htrans : ∀ a b c, cmp a b ≤ 0 → cmp b c ≤ 0 → cmp a c ≤ 0) :
    ∀ l, (parray_qsort cmp l).Pairwise (fun x y => cmp x y ≤ 0) := by
  intro l
  induction l with
  | nil => simp [parray_qsort]
  | cons x xs ih => exact insertByCmp_pairwise cmp htot htrans x _ ih

/-- The descending comparator orders by id: cmp x y ≤ 0 iff y's id ≤ x's. -/
theorem cmpDesc_le (x y : pgBackup) :
    pgBackupCompareIdDesc x y ≤ 0 ↔ y.start_time ≤ x.start_time := by
  simp only [pgBackupCompareIdDesc, pgBackupCompareId]
  split_ifs <;> omega

/-- One directory entry of the backups root: its name, whether it is a
directory (the IsDir check), and the backup.ini contents when that file is
readable; none stands for an absent metadata file, for which catalog_read_ini
returns NULL. -/
structure DirEntry where
  name : String
  isDir : Bool
  ini : Option (List (String × String))
deriving DecidableEq, Repr

/-- d_name[0] == '.' -/
def hiddenName (s : String) : Bool :=
  match s.toList with
  | c :: _ => c == '.'
  | [] => false

/-- The per-entry loop of catalog_get_backup_list: skip non-directories and
hidden names; read backup.ini; a NULL read (absent file) is skipped without
any message; a fatal read (elog ERROR raised inside catalog_read_ini) aborts
the whole listing; a decoded record is kept unless the filter id excludes it.
The String list accumulates the messages logged along the way. -/
def catalog_scan (backup_id : Nat) :
    List DirEntry → List pgBackup → List String → Option (List pgBackup) × List String
  | [], acc, log => (some acc, log)
  | e :: es, acc, log =>
    if !e.isDir || hiddenName e.name then catalog_scan backup_id es acc log
    else
      match catalog_read_ini e.ini with
      | .absent => catalog_scan backup_id es acc log
      | .fatal msg => (none, log ++ [msg])
      | .ok b ws =>
        if backup_id != 0 && backup_id != b.start_time then
          catalog_scan backup_id es acc (log ++ ws)
        else catalog_scan backup_id es (acc ++ [b]) (log ++ ws)

/-- catalog_get_backup_list: a none root means opendir failed — the code
warns and returns NULL, aborting the whole listing with no partial result
(its callers escalate the NULL to elog(ERROR, "cannot process any more."));
otherwise scan the entries and sort the survivors descending by id. -/
def catalog_get_backup_list (root : Option (List DirEntry)) (backup_id : Nat) :
    Option (List pgBackup) × List String :=
  match root with
  | none => (none, ["cannot open directory"])
  | some entries =>
    ((catalog_scan backup_id entries [] []).1.map (parray_qsort pgBackupCompareIdDesc),
     (catalog_scan backup_id entries [] []).2)

/-- The records a scan keeps (accumulator-free form); none on a fatal read. -/
def collectScan (backup_id : Nat) : List DirEntry → Option (List pgBackup)
  | [] => some []
  | e :: es =>
    if !e.isDir || hiddenName e.name then collectScan backup_id es
    else
      match catalog_read_ini e.ini with
      | .absent => collectScan backup_id es
      | .fatal _ => none
      | .ok b _ =>
        if backup_id != 0 && backup_id != b.start_time then collectScan backup_id es
        else (collectScan backup_id es).map (fun l => b :: l)

theorem catalog_scan_fst (backup_id : Nat) :
    ∀ (es : List DirEntry) (acc : List pgBackup) (log : List String),
      (catalog_scan backup_id es acc log).1
        = (collectScan backup_id es).map (fun l => acc ++ l) := by
  intro es
  induction es with
  | nil => intro acc log; simp [catalog_scan, collectScan]
  | cons e es ih =>
    intro acc log
    simp only [catalog_scan, collectScan]
    split_ifs with h
    · exact ih acc log
    · rcases hcr : catalog_read_ini e.ini with _ | msg | ⟨b, ws⟩
      · exact ih acc log
      · rfl
      · dsimp only
        split_ifs with h2
        · exact ih acc (log ++ ws)
        · rw [ih (acc ++ [b]) (log ++ ws)]
          rcases hc : collectScan backup_id es with _ | l
          · rfl
          · simp

theorem collectScan_filter (backup_id : Nat) (hid : backup_id ≠ 0) :
    ∀ es, collectScan backup_id es
      = (collectScan 0 es).map (List.filter (fun b => b.start_time == backup_id)) := by
  intro es
  induction es with
  | nil => simp [collectScan]
  | cons e es ih =>
    simp only [collectScan]
    split_ifs with h
    · exact ih
    · rcases hcr : catalog_read_ini e.ini with _ | msg | ⟨b, ws⟩
      · exact ih
      · rfl
      · dsimp only
        have h0 : ((0 : Nat) != 0 && (0 : Nat) != b.start_time) = false := by simp
        rw [h0]
        simp only [Bool.false_eq_true, if_false]
        by_cases hb : backup_id = b.start_time
        · have hcf : (backup_id != 0 && backup_id != b.start_time) = false := by
            simp [hb]
          rw [hcf]
          rcases hc : collectScan 0 es with _ | l
          · simp [ih, hc]
          · have hpb : (b.start_time == backup_id) = true := by
              simp [beq_iff_eq]
              omega
            simp [ih, hc, List.filter_cons, hpb]
        · have hct : (backup_id != 0 && backup_id != b.start_time) = true := by
            simp [bne_iff_ne, hid, hb]
          rw [hct]
          rcases hc : collectScan 0 es with _ | l
          · simp [ih, hc]
          · have hpb : (b.start_time == backup_id) = false := by
              simp [beq_iff_eq]
              omega
            simp [ih, hc, List.filter_cons, hpb]

theorem cmpDesc_total (a b : pgBackup) (h : ¬ pgBackupCompareIdDesc a b ≤ 0) :
    pgBackupCompareIdDesc b a ≤ 0 := by
  rw [cmpDesc_le] at *
  omega

theorem cmpDesc_trans (a b c : pgBackup) (h1 : pgBackupCompareIdDesc a b ≤ 0)
    (h2 : pgBackupCompareIdDesc b c ≤ 0) : pgBackupCompareIdDesc a c ≤ 0 := by
  rw [cmpDesc_le] at *
  omega

/-- C8: a successful listing is strictly descending by id (under the catalog
invariant that ids are unique), and a listing filtered by a nonzero id
contains exactly the records of the full listing carrying that id — so it is
the empty "not found" result exactly when no record has that id. -/
theorem C8_list_descending_and_filter (entries : List DirEntry) (id : Nat)
    (l0 li : List pgBackup)
    (h0 : (catalog_get_backup_list (some entries) 0).1 = some l0)
    (hnd : (l0.map pgBackup.start_time).Nodup)
    (hid : id ≠ 0)
    (hi : (catalog_get_backup_list (some entries) id).1 = some li) :
    List.Chain' (fun a b => b.start_time < a.start_time) l0
    ∧ (∀ b, b ∈ li ↔ b ∈ l0 ∧ b.start_time = id) := by
  simp only [catalog_get_backup_list, catalog_scan_fst] at h0 hi
  rw [collectScan_filter id hid] at hi
  rcases hc0 : collectScan 0 entries with _ | c0
  · rw [hc0] at h0
    simp at h0
  rw [hc0] at h0 hi
  simp only [Option.map_some', List.nil_append, Option.some.injEq] at h0 hi
  subst h0
  subst hi
  have hpair := parray_qsort_pairwise pgBackupCompareIdDesc cmpDesc_total cmpDesc_trans c0
  have hge : (parray_qsort pgBackupCompareIdDesc c0).Pairwise
      (fun x y => y.start_time ≤ x.start_time) := by
    refine hpair.imp ?_
    intro a b hab
    exact (cmpDesc_le a b).1 hab
  have hne : (parray_qsort pgBackupCompareIdDesc c0).Pairwise
      (fun x y => x.start_time ≠ y.start_time) := by
    exact (List.pairwise_map.1 hnd)
  constructor
  · refine List.Pairwise.chain' ?_
    refine (hge.and hne).imp ?_
    intro a b hab
    rcases hab with ⟨h1, h2⟩
    omega
  · intro b
    have hmem1 : b ∈ parray_qsort pgBackupCompareIdDesc
        (List.filter (fun x => x.start_time == id) c0)
        ↔ b ∈ List.filter (fun x => x.start_time == id) c0 :=
      (parray_qsort_perm pgBackupCompareIdDesc _).mem_iff
    have hmem2 : b ∈ parray_qsort pgBackupCompareIdDesc c0 ↔ b ∈ c0 :=
      (parray_qsort_perm pgBackupCompareIdDesc _).mem_iff
    rw [hmem1, List.mem_filter, hmem2, beq_iff_eq]

/-- A second concrete record for listing scenarios (id 200). -/
def sampleBackup2 : pgBackup := { sampleBackup with start_time := 200 }

/-- C8 witness: a concrete two-entry catalog listed in full and filtered. -/
theorem C8_witness :
    List.Chain' (fun a b => b.start_time < a.start_time) [sampleBackup2, sampleBackup]
    ∧ (sampleBackup ∈ [sampleBackup]
        ↔ sampleBackup ∈ [sampleBackup2, sampleBackup] ∧ sampleBackup.start_time = 100) := by
  have h := C8_list_descending_and_filter
    [⟨"a", true, some (pgBackupWriteIni sampleBackup)⟩,
     ⟨"b", true, some (pgBackupWriteIni sampleBackup2)⟩]
    100 [sampleBackup2, sampleBackup] [sampleBackup]
    (by decide) (by decide) (by decide) (by decide)
  exact ⟨h.1, h.2 sampleBackup⟩

theorem catalog_scan_skip (backup_id : Nat) (e : DirEntry)
    (hdir : e.isDir = true) (hhid : hiddenName e.name = false) (hini : e.ini = none) :
    ∀ (pre post : List DirEntry) (acc : List pgBackup) (log : List String),
      catalog_scan backup_id (pre ++ e :: post) acc log
        = catalog_scan backup_id (pre ++ post) acc log := by
  intro pre
  induction pre with
  | nil =>
    intro post acc log
    have hsk : (!e.isDir || hiddenName e.name) = false := by rw [hdir, hhid]; rfl
    simp only [List.nil_append, catalog_scan, hsk, Bool.false_eq_true, if_false, hini]
    rfl
  | cons p pre ih =>
    intro post acc log
    simp only [List.cons_append, catalog_scan]
    split_ifs with h
    · exact ih post acc log
    · rcases hcr : catalog_read_ini p.ini with _ | msg | ⟨b, ws⟩
      · exact ih post acc log
      · rfl
      · dsimp only
        split_ifs with h2
        · exact ih post acc (log ++ ws)
        · exact ih post (acc ++ [b]) (log ++ ws)

/-- C6, amended: an entry whose metadata file cannot be decoded at all (its
backup.ini is absent) is skipped silently — the listing continues over the
remaining entries and the skip leaves no message in the log — whereas a
failure to open the catalog root directory itself aborts the whole listing
with no partial result, and is reported (warning at the listing, escalated
to elog(ERROR) by every caller). -/
theorem C6_listing_failure_modes (pre post : List DirEntry) (e : DirEntry) (id : Nat)
    (hdir : e.isDir = true) (hhid : hiddenName e.name = false) (hini : e.ini = none) :
    catalog_get_backup_list (some (pre ++ e :: post)) id
      = catalog_get_backup_list (some (pre ++ post)) id
    ∧ catalog_get_backup_list none id = (none, ["cannot open directory"]) := by
  constructor
  · simp only [catalog_get_backup_list, catalog_scan_skip id e hdir hhid hini]
  · rfl

/-- C6 counterexample: an undecodable (absent backup.ini) entry is skipped
and the listing continues, but with an empty message log — no warning is
recorded for the skip, contrary to the claim. -/
theorem C6_counterexample_no_warning :
    catalog_get_backup_list
      (some [⟨"a", true, some (pgBackupWriteIni sampleBackup)⟩, ⟨"b", true, none⟩]) 0
      = (some [sampleBackup], []) := by
  decide

/-- C6 witness: the amended behavior at a concrete entry. -/
theorem C6_witness :
    catalog_get_backup_list (some ([] ++ (⟨"b", true, none⟩ : DirEntry) :: [])) 0
      = catalog_get_backup_list (some ([] ++ [])) 0
    ∧ catalog_get_backup_list none 0 = (none, ["cannot open directory"]) :=
  C6_listing_failure_modes [] [] ⟨"b", true, none⟩ 0 rfl rfl rfl

/-! ## Backup Chain Validator: do_validate_last (the validate-all pass) -/

/-- The loop body of do_validate_last over the ascending-sorted list: a
RUNNING/DELETING record seen while no other pg_probackup holds the catalog
lock is flipped to ERROR and written immediately (pgBackupWriteIni), and a
record whose status is then DONE is handed to pgBackupValidate.  The first
component logs the stale-cleanup writes in loop order, the second the
records passed to the Validation Engine. -/
def do_validate_last_core (another_pg_probackup : Bool) :
    List pgBackup → List pgBackup × List pgBackup
  | [] => ([], [])
  | b :: rest =>
    let stale := !another_pg_probackup
      && (b.status == BackupStatus.BACKUP_STATUS_RUNNING
          || b.status == BackupStatus.BACKUP_STATUS_DELETING)
    let b1 := if stale then { b with status := BackupStatus.BACKUP_STATUS_ERROR } else b
    let t := do_validate_last_core another_pg_probackup rest
    ((if stale then b1 :: t.1 else t.1),
     (if b1.status == BackupStatus.BACKUP_STATUS_DONE then b1 :: t.2 else t.2))

/-- do_validate_last: sort the catalog list ascending (parray_qsort with
pgBackupCompareId) and run the loop. -/
def do_validate_last (another_pg_probackup : Bool) (backup_list : List pgBackup) :
    List pgBackup × List pgBackup :=
  do_validate_last_core another_pg_probackup (parray_qsort pgBackupCompareId backup_list)

def staleStatus (b : pgBackup) : Bool :=
  b.status == BackupStatus.BACKUP_STATUS_RUNNING
    || b.status == BackupStatus.BACKUP_STATUS_DELETING

theorem dvl_core_writes_true :
    ∀ l, (do_validate_last_core true l).1 = [] := by
  intro l
  induction l with
  | nil => rfl
  | cons b rest ih => simp [do_validate_last_core, ih]

theorem dvl_core_writes_false :
    ∀ l, (do_validate_last_core false l).1
      = (l.filter staleStatus).map
          (fun b => { b with status := BackupStatus.BACKUP_STATUS_ERROR }) := by
  intro l
  induction l with
  | nil => rfl
  | cons b rest ih =>
    simp only [do_validate_last_core, Bool.not_false, Bool.true_and]
    rcases hst : (b.status == BackupStatus.BACKUP_STATUS_RUNNING
        || b.status == BackupStatus.BACKUP_STATUS_DELETING) with _ | _
    · simp [List.filter_cons, staleStatus, hst, ih]
    · simp [List.filter_cons, staleStatus, hst, ih]

theorem dvl_core_validated (a : Bool) :
    ∀ l, (do_validate_last_core a l).2
      = l.filter (fun b => b.status == BackupStatus.BACKUP_STATUS_DONE) := by
  intro l
  induction l with
  | nil => rfl
  | cons b rest ih =>
    simp only [do_validate_last_core]
    rcases hst : (!a && (b.status == BackupStatus.BACKUP_STATUS_RUNNING
        || b.status == BackupStatus.BACKUP_STATUS_DELETING)) with _ | _
    · simp [List.filter_cons, ih]
    · rw [Bool.and_eq_true] at hst
      have hor := hst.2
      rw [Bool.or_eq_true] at hor
      have hdone : (b.status == BackupStatus.BACKUP_STATUS_DONE) = false := by
        rcases hor with h | h <;>
          (rw [beq_iff_eq] at h; simp [h])
      simp [List.filter_cons, hdone, ih]

/-- C3: during a validate-all pass, every RUNNING or DELETING record observed
while no other process holds the catalog lock is flipped to ERROR and that
write is issued immediately, in loop order; when another process holds the
lock no record is touched; and the Validation Engine is invoked exactly on
the records whose status is DONE. -/
theorem C3_validate_all_pass (another_pg_probackup : Bool) (backup_list : List pgBackup) :
    (do_validate_last another_pg_probackup backup_list).1
      = (if another_pg_probackup then []
         else ((parray_qsort pgBackupCompareId backup_list).filter staleStatus).map
              (fun b => { b with status := BackupStatus.BACKUP_STATUS_ERROR }))
    ∧ ∀ b, b ∈ (do_validate_last another_pg_probackup backup_list).2
        ↔ b ∈ backup_list ∧ b.status = BackupStatus.BACKUP_STATUS_DONE := by
  constructor
  · rcases another_pg_probackup with _ | _
    · simp [do_validate_last, dvl_core_writes_false]
    · simp [do_validate_last, dvl_core_writes_true]
  · intro b
    rw [do_validate_last, dvl_core_validated, List.mem_filter,
      (parray_qsort_perm pgBackupCompareId backup_list).mem_iff, beq_iff_eq]

/-! ## Backup Selector: the two selection loops of do_validate -/

def okOrCorrupt (s : BackupStatus) : Bool :=
  s == BackupStatus.BACKUP_STATUS_OK || s == BackupStatus.BACKUP_STATUS_CORRUPT

/-- Modelled from the spec: the recovery-target specification (time/xid and
the inclusive flag), a collaborator interface consumed by the selector. -/
structure pgRecoveryTarget where
  time_specified : Bool
  recovery_target_time : Nat
  xid_specified : Bool
  recovery_target_xid : Nat
  recovery_target_inclusive : Bool
deriving DecidableEq, Repr

/-- Modelled from the spec: recovery-target reachability is a time/xid
comparison against the record's recovery markers (restore.c is not under
src/). -/
def satisfy_recovery_target (b : pgBackup) (rt : pgRecoveryTarget) : Bool :=
  if rt.xid_specified then b.recovery_xid ≤ rt.recovery_target_xid
  else if rt.time_specified then b.recovery_time ≤ rt.recovery_target_time
  else true

/-- Modelled from the spec: one entry of the timeline-history ancestor chain
returned by the timeline-history collaborator. -/
structure pgTimeLine where
  tli : Nat
  end_lsn : Nat
deriving DecidableEq, Repr

/-- Modelled from the spec: the "satisfies timeline" predicate of the
timeline-history collaborator. -/
def satisfy_timeline (timelines : List pgTimeLine) (b : pgBackup) : Bool :=
  timelines.any (fun tl => b.tli == tl.tli && b.stop_lsn ≤ tl.end_lsn)

/-- The base-backup search loop of do_validate: scan the descending list;
with a nonzero backup_id skip entries newer than it; remember when the entry
at exactly backup_id is usable (OK/CORRUPT); fail fatally when the entry at
backup_id has any other status; skip entries below FULL mode or not
OK/CORRUPT; accept the first entry satisfying the timeline and
recovery-target predicates (and, with a nonzero backup_id, only if the
anchor was matched), else clear the anchor-match flag and continue.  Returns
the index and record of the base backup found, or the fatal message. -/
def findBase (backup_id : Nat) (satTl satRt : pgBackup → Bool) :
    List pgBackup → Nat → Bool → Except String (Nat × pgBackup)
  | [], _, _ => .error "no full backup found, cannot validate."
  | b :: rest, i, idFound =>
    if backup_id != 0 && backup_id < b.start_time then
      findBase backup_id satTl satRt rest (i + 1) idFound
    else
      let idFound1 := idFound || (backup_id == b.start_time && okOrCorrupt b.status)
      if backup_id == b.start_time && !okOrCorrupt b.status then
        .error ("given backup " ++ base36enc backup_id ++ " is " ++ status2str b.status)
      else if b.backup_mode.ord < BackupMode.ord .BACKUP_MODE_FULL
          || !okOrCorrupt b.status then
        findBase backup_id satTl satRt rest (i + 1) idFound1
      else if satTl b && satRt b && (idFound1 || backup_id == 0) then
        .ok (i, b)
      else
        findBase backup_id satTl satRt rest (i + 1) false

/-- The differential-chain loop of do_validate, walking from just below the
base index toward the newest entry (the C loop runs i = base_index-1 down to
0; element-wise that is the reversed prefix of the descending list before the
base).  Collects, in visit order, the differential backups passed to
pgBackupValidate. -/
def chainWalk (backup_id : Nat) (satTl satRt : pgBackup → Bool) (base : pgBackup) :
    List pgBackup → List pgBackup
  | [] => []
  | b :: rest =>
    if !okOrCorrupt b.status || b.tli != base.tli then
      chainWalk backup_id satTl satRt base rest
    else if b.backup_mode == .BACKUP_MODE_FULL then []
    else if backup_id != 0 && backup_id < b.start_time then []
    else if b.backup_mode != .BACKUP_MODE_DIFF_PAGE
        && b.backup_mode != .BACKUP_MODE_DIFF_PTRACK then
      chainWalk backup_id satTl satRt base rest
    else if !(satTl b && satRt b) then
      chainWalk backup_id satTl satRt base rest
    else b :: chainWalk backup_id satTl satRt base rest

/-- C7: in the base-backup scan with a nonzero anchor id, every entry whose
id exceeds the anchor is skipped (a prefix made of such entries leaves the
scan result unchanged, apart from the running index), and when the entry
carrying exactly the anchor id has a status other than OK or CORRUPT the
whole operation fails fatally with a message reporting that status. -/
theorem C7_anchor_skip_and_fatal (backup_id : Nat) (satTl satRt : pgBackup → Bool)
    (hid : backup_id ≠ 0) :
    (∀ (pre rest : List pgBackup) (i : Nat) (f : Bool),
       (∀ b ∈ pre, backup_id < b.start_time) →
       findBase backup_id satTl satRt (pre ++ rest) i f
         = findBase backup_id satTl satRt rest (i + pre.length) f)
    ∧ (∀ (b : pgBackup) (rest : List pgBackup) (i : Nat) (f : Bool),
       b.start_time = backup_id → okOrCorrupt b.status = false →
       findBase backup_id satTl satRt (b :: rest) i f
         = .error ("given backup " ++ base36enc backup_id ++ " is " ++ status2str b.status)) := by
  constructor
  · intro pre
    induction pre with
    | nil =>
      intro rest i f _
      simp
    | cons p pre ih =>
      intro rest i f hall
      have hp : backup_id < p.start_time := hall p (List.mem_cons_self _ _)
      have hcond : (backup_id != 0 && decide (backup_id < p.start_time)) = true := by
        simp [bne_iff_ne, hid, hp]
      rw [List.cons_append, findBase, if_pos hcond,
        ih rest (i + 1) f (fun b hb => hall b (List.mem_cons_of_mem _ hb))]
      have hlen : i + 1 + pre.length = i + (p :: pre).length := by
        simp [List.length_cons]
        omega
      rw [hlen]
  · intro b rest i f hb hst
    have hcond : (backup_id != 0 && decide (backup_id < b.start_time)) = false := by
      simp [hb]
    rw [findBase, if_neg]
    · rw [if_pos]
      simp [hb, hst]
    · rw [hcond]
      simp

/-- C7 witness: the skip and the fatal failure at concrete inputs. -/
theorem C7_witness :
    findBase 100 (fun _ => true) (fun _ => true) ([sampleBackup2] ++ []) 0 false
      = findBase 100 (fun _ => true) (fun _ => true) [] (0 + [sampleBackup2].length) false
    ∧ findBase 100 (fun _ => true) (fun _ => true)
        [{ sampleBackup with status := .BACKUP_STATUS_RUNNING }] 0 false
      = .error ("given backup " ++ base36enc 100 ++ " is "
          ++ status2str .BACKUP_STATUS_RUNNING) := by
  have h := C7_anchor_skip_and_fatal 100 (fun _ => true) (fun _ => true) (by decide)
  exact ⟨h.1 [sampleBackup2] [] 0 false (by decide),
    h.2 { sampleBackup with status := .BACKUP_STATUS_RUNNING } [] 0 false (by decide) (by decide)⟩

/-- The timeline history and recovery target of the C4 scenario: timeline 1,
and a target time of 190, before the start (200) of the newest full backup. -/
def tlHistoryC4 : List pgTimeLine := [⟨1, 2 ^ 60⟩]

def rtC4 : pgRecoveryTarget := ⟨true, 190, false, 0, true⟩

def bFull100 : pgBackup :=
  { catalog_init_config with
    backup_mode := .BACKUP_MODE_FULL
    status := .BACKUP_STATUS_OK
    tli := 1
    start_time := 100
    recovery_time := 105 }

def bDiff150 : pgBackup :=
  { catalog_init_config with
    backup_mode := .BACKUP_MODE_DIFF_PAGE
    status := .BACKUP_STATUS_OK
    tli := 1
    start_time := 150
    recovery_time := 155 }

def bFull200 : pgBackup :=
  { catalog_init_config with
    backup_mode := .BACKUP_MODE_FULL
    status := .BACKUP_STATUS_OK
    tli := 1
    start_time := 200
    recovery_time := 205 }

/-- C4: with the catalog FULL(100), DIFF(150), FULL(200) on timeline 1, all
OK, and a recovery target before backup 200's start, the base-backup search
selects id 100 (at descending index 2), and the differential-chain walk over
the entries before the base visits exactly id 150 — id 200 is excluded (the
walk stops at the first FULL entry). -/
theorem C4_selection_scenario :
    findBase 0 (satisfy_timeline tlHistoryC4) (fun b => satisfy_recovery_target b rtC4)
        [bFull200, bDiff150, bFull100] 0 false = .ok (2, bFull100)
    ∧ chainWalk 0 (satisfy_timeline tlHistoryC4) (fun b => satisfy_recovery_target b rtC4)
        bFull100 (([bFull200, bDiff150, bFull100].take 2).reverse) = [bDiff150] := by
  constructor
  · rfl
  · rfl

/-! ## Validation Engine: pgBackupValidate / pgBackupValidateFiles

The worker pool is embedded as an interleaving semantics: a schedule is a
list of worker ids, and each scheduled step runs one iteration of the worker
loop of pgBackupValidateFiles, with the __sync_lock_test_and_set claim
executed atomically within the step. -/

/-- One manifest entry (pgFile): path, whether the mode bits denote a
regular file, the recorded write_size (BYTES_INVALID for a file not present
in this differential), and the stored CRC. -/
structure pgFile where
  path : String
  isreg : Bool
  write_size : Int
  crc : Nat
deriving DecidableEq, Repr

/-- Outcome of one stat() call. -/
inductive StatResult
  | noent
  | err
  | ok (size : Int)
deriving DecidableEq, Repr

/-- The filesystem as one validation run observes it: per-path stat outcome
and per-path recomputed CRC (pgFileGetCRC). -/
structure FileSystem where
  stat : String → StatResult
  crc : String → Nat

/-- Per-file verdict of one loop iteration of pgBackupValidateFiles after a
successful claim: fatal for the interrupted check and for a stat failure
other than ENOENT (both elog(ERROR)); skip for a sentinel write_size or a
non-regular file; bad — the soft failure: warn, record corruption, return
from this worker's loop — for a vanished file, a size mismatch, or (when
CRCs are checked) a CRC mismatch; good otherwise. -/
inductive Verdict
  | skip
  | good
  | bad
  | fatal
deriving DecidableEq, Repr

def fileVerdict (fs : FileSystem) (interrupted size_only : Bool) (f : pgFile) : Verdict :=
  if interrupted then .fatal
  else if f.write_size == BYTES_INVALID || !f.isreg then .skip
  else
    match fs.stat f.path with
    | .noent => .bad
    | .err => .fatal
    | .ok sz =>
      if f.write_size != sz then .bad
      else if !size_only && fs.crc f.path != f.crc then .bad
      else .good

/-- The verdict at a manifest index. -/
def verdictOf (fs : FileSystem) (interrupted size_only : Bool) (files : List pgFile)
    (i : Nat) : Verdict :=
  match files[i]? with
  | some f => fileVerdict fs interrupted size_only f
  | none => .skip

/-- One worker of the pool: its loop index, and the corrupted flag of its
argument block (a worker that recorded corruption has returned early). -/
structure Worker where
  pc : Nat
  corrupted : Bool
deriving DecidableEq, Repr

/-- Shared state of one validation run: the per-entry claim flags (the
pgFile lock words, reset by __sync_lock_release before the pool starts), the
log of successful claims as (worker, index) pairs, and the workers. -/
structure RunState where
  flags : List Bool
  claims : List (Nat × Nat)
  workers : List Worker
deriving DecidableEq, Repr

/-- The state in which pgBackupValidate starts the pool: every claim flag
released (unclaimed) and every worker at the top of its loop. -/
def initState (M N : Nat) : RunState :=
  ⟨List.replicate M false, [], List.replicate N ⟨0, false⟩⟩

def workerDone (M : Nat) (w : Worker) : Bool := w.corrupted || decide (M ≤ w.pc)

def allDone (M : Nat) (s : RunState) : Bool := s.workers.all (workerDone M)

/-- One scheduler step: run worker wid for one iteration of its loop.  The
test-and-set claim is atomic within the step; an already-set flag means the
entry is skipped (claim lost); a fatal verdict aborts the whole run
(elog(ERROR)); a bad verdict records corruption in the worker block and ends
that worker's loop.  Scheduling a finished worker (or an id outside the
pool) changes nothing. -/
def step (verdict : Nat → Verdict) (M : Nat) (s : RunState) (wid : Nat) :
    Option RunState :=
  match s.workers[wid]? with
  | none => some s
  | some wk =>
    if workerDone M wk then some s
    else if s.flags.getD wk.pc false then
      some { s with workers := s.workers.set wid { wk with pc := wk.pc + 1 } }
    else
      match verdict wk.pc with
      | .fatal => none
      | .bad => some { flags := s.flags.set wk.pc true,
                       claims := s.claims ++ [(wid, wk.pc)],
                       workers := s.workers.set wid { wk with corrupted := true } }
      | _ => some { flags := s.flags.set wk.pc true,
                    claims := s.claims ++ [(wid, wk.pc)],
                    workers := s.workers.set wid { wk with pc := wk.pc + 1 } }

/-- A whole run under one schedule. -/
def runSched (verdict : Nat → Verdict) (M N : Nat) (sched : List Nat) :
    Option RunState :=
  sched.foldlM (step verdict M) (initState M N)

/-- How many times entry i was claimed during the run. -/
def claimCount (s : RunState) (i : Nat) : Nat :=
  (s.claims.filter (fun p => p.2 == i)).length

/-- Whether the mode is one of the three data modes pgBackupValidate checks. -/
def modeIsData (m : BackupMode) : Bool :=
  m == .BACKUP_MODE_FULL || m == .BACKUP_MODE_DIFF_PAGE || m == .BACKUP_MODE_DIFF_PTRACK

/-- pgBackupValidate under one schedule of the worker pool.  When the global
check flag is set, nothing happens and nothing is written (the whole body
sits under if (!check)).  For a data-mode backup the manifest is handed to
the pool (none = the run aborted via elog(ERROR)); after the joins the
per-worker corrupted flags are OR-combined and CORRUPT or OK is persisted
via pgBackupWriteIni.  For any other mode no file is loaded or checked and
OK is persisted unconditionally.  Returns the record as it is persisted,
paired with whether a write happened. -/
def pgBackupValidate (check : Bool) (fs : FileSystem) (files : List pgFile)
    (interrupted size_only : Bool) (N : Nat) (sched : List Nat) (backup : pgBackup) :
    Option (pgBackup × Bool) :=
  if check then some (backup, false)
  else if modeIsData backup.backup_mode then
    match runSched (verdictOf fs interrupted size_only files) files.length N sched with
    | none => none
    | some s =>
      if s.workers.any (fun w => w.corrupted) then
        some ({ backup with status := .BACKUP_STATUS_CORRUPT }, true)
      else
        some ({ backup with status := .BACKUP_STATUS_OK }, true)
  else some ({ backup with status := .BACKUP_STATUS_OK }, true)

/-! ## List index helpers for the run-state proofs -/

theorem getD_replicate_false : ∀ (M i : Nat), (List.replicate M false).getD i false = false := by
  intro M
  induction M with
  | zero => intro i; rcases i with _ | i <;> rfl
  | succ M ih =>
    intro i
    rcases i with _ | i
    · rfl
    · exact ih i

theorem getD_set_self {α : Type} : ∀ (l : List α) (j : Nat) (a d : α), j < l.length →
    (l.set j a).getD j d = a := by
  intro l
  induction l with
  | nil => intro j a d hj; simp at hj
  | cons x xs ih =>
    intro j a d hj
    rcases j with _ | j
    · rfl
    · exact ih j a d (Nat.lt_of_succ_lt_succ hj)

theorem getD_set_ne {α : Type} : ∀ (l : List α) (i j : Nat) (a d : α), i ≠ j →
    (l.set j a).getD i d = l.getD i d := by
  intro l
  induction l with
  | nil => intro i j a d h; rfl
  | cons x xs ih =>
    intro i j a d h
    rcases j with _ | j
    · rcases i with _ | i
      · exact absurd rfl h
      · rfl
    · rcases i with _ | i
      · rfl
      · exact ih i j a d (fun hc => h (by rw [hc]))

theorem getElem?_set_self {α : Type} : ∀ (l : List α) (j : Nat) (a : α), j < l.length →
    (l.set j a)[j]? = some a := by
  intro l
  induction l with
  | nil => intro j a hj; simp at hj
  | cons x xs ih =>
    intro j a hj
    rcases j with _ | j
    · simp
    · simpa using ih j a (Nat.lt_of_succ_lt_succ hj)

theorem getElem?_set_ne {α : Type} : ∀ (l : List α) (i j : Nat) (a : α), i ≠ j →
    (l.set j a)[i]? = l[i]? := by
  intro l
  induction l with
  | nil => intro i j a h; rfl
  | cons x xs ih =>
    intro i j a h
    rcases j with _ | j
    · rcases i with _ | i
      · exact absurd rfl h
      · simp
    · rcases i with _ | i
      · simp
      · simpa using ih i j a (fun hc => h (by rw [hc]))

theorem getElem?_some_lt {α : Type} : ∀ (l : List α) (i : Nat) (a : α),
    l[i]? = some a → i < l.length := by
  intro l
  induction l with
  | nil => intro i a h; simp at h
  | cons x xs ih =>
    intro i a h
    rcases i with _ | i
    · simp
    · simp only [List.getElem?_cons_succ] at h
      exact Nat.succ_lt_succ (ih i a h)

theorem replicate_getElem?_eq {α : Type} (a : α) : ∀ (n i : Nat) (b : α),
    (List.replicate n a)[i]? = some b → b = a := by
  intro n
  induction n with
  | zero => intro i b h; simp at h
  | succ n ih =>
    intro i b h
    rcases i with _ | i
    · simp only [List.replicate_succ, List.getElem?_cons_zero] at h
      injection h with h
      exact h.symm
    · simp only [List.replicate_succ, List.getElem?_cons_succ] at h
      exact ih i b h

theorem flag_true_preserved (l : List Bool) (p j : Nat) (hp : p < l.length)
    (h : l.getD j false = true) : (l.set p true).getD j false = true := by
  by_cases hj : j = p
  · subst hj
    exact getD_set_self l j true false hp
  · rw [getD_set_ne l j p true false hj]
    exact h

theorem claimFilter_count : ∀ (claims : List (Nat × Nat)) (i : Nat),
    (claims.filter (fun p => p.2 == i)).length = (claims.map Prod.snd).count i := by
  intro claims i
  induction claims with
  | nil => rfl
  | cons p ps ih =>
    rw [List.filter_cons, List.map_cons, List.count_cons]
    by_cases h : p.2 = i
    · simp [h, ih]
    · simp [h, ih]

/-! ## The run invariant -/

/-- Invariant of every reachable state of a validation run: the flags mirror
the set of claimed indices, no index is claimed twice, a worker's loop index
only moves past set flags, a worker is corrupted exactly when it claimed an
entry with a bad verdict. -/
structure RunInv (verdict : Nat → Verdict) (M N : Nat) (s : RunState) : Prop where
  flags_len : s.flags.length = M
  workers_len : s.workers.length = N
  claims_lt : ∀ p ∈ s.claims, p.2 < M
  claims_nodup : (s.claims.map Prod.snd).Nodup
  flags_claims : ∀ i, i < M → (s.flags.getD i false = true ↔ i ∈ s.claims.map Prod.snd)
  pc_flags : ∀ (wid : Nat) (wk : Worker), s.workers[wid]? = some wk → ∀ j, j < wk.pc → s.flags.getD j false = true
  pc_le : ∀ (wid : Nat) (wk : Worker), s.workers[wid]? = some wk → wk.pc ≤ M
  corrupt_bad : ∀ (wid : Nat) (wk : Worker), s.workers[wid]? = some wk → wk.corrupted = true →
    ∃ i, (wid, i) ∈ s.claims ∧ verdict i = .bad
  claims_bad : ∀ wid i, (wid, i) ∈ s.claims → verdict i = .bad →
    ∃ wk : Worker, s.workers[wid]? = some wk ∧ wk.corrupted = true

theorem initInv (verdict : Nat → Verdict) (M N : Nat) :
    RunInv verdict M N (initState M N) where
  flags_len := by simp [initState]
  workers_len := by simp [initState]
  claims_lt := by intro p hp; simp [initState] at hp
  claims_nodup := by simp [initState]
  flags_claims := by
    intro i hi
    simp [initState, getD_replicate_false]
  pc_flags := by
    intro wid wk h j hj
    have := replicate_getElem?_eq (⟨0, false⟩ : Worker) N wid wk h
    rw [this] at hj
    simp at hj
  pc_le := by
    intro wid wk h
    have := replicate_getElem?_eq (⟨0, false⟩ : Worker) N wid wk h
    rw [this]
    exact Nat.zero_le M
  corrupt_bad := by
    intro wid wk h hc
    have := replicate_getElem?_eq (⟨0, false⟩ : Worker) N wid wk h
    rw [this] at hc
    simp at hc
  claims_bad := by
    intro wid i h
    simp [initState] at h

theorem notDone_facts {M : Nat} {wk : Worker} (h : ¬ workerDone M wk = true) :
    wk.corrupted = false ∧ wk.pc < M := by
  unfold workerDone at h
  rw [Bool.or_eq_true, decide_eq_true_iff] at h
  push_neg at h
  constructor
  · cases hb : wk.corrupted
    · rfl
    · exact absurd hb h.1
  · exact h.2

/-- Invariant preservation across a successful fresh claim of entry wk.pc by
worker wid: nk is the worker block after the claim, which either advanced
(verdict not bad) or recorded corruption and stopped (verdict bad). -/
theorem claimInvAux {verdict : Nat → Verdict} {M N : Nat} {s : RunState} {wid : Nat}
    {wk nk : Worker}
    (hI : RunInv verdict M N s) (hwk : s.workers[wid]? = some wk)
    (hcorr : wk.corrupted = false) (hpc : wk.pc < M)
    (hflag : s.flags.getD wk.pc false = false)
    (hcase : (nk = { wk with pc := wk.pc + 1 } ∧ verdict wk.pc ≠ .bad)
           ∨ (nk = { wk with corrupted := true } ∧ verdict wk.pc = .bad)) :
    RunInv verdict M N ⟨s.flags.set wk.pc true, s.claims ++ [(wid, wk.pc)],
                        s.workers.set wid nk⟩ := by
  have hwidlt : wid < s.workers.length := getElem?_some_lt _ _ _ hwk
  have hpcf : wk.pc < s.flags.length := by rw [hI.flags_len]; exact hpc
  have hnotmem : wk.pc ∉ s.claims.map Prod.snd := by
    intro hmem
    have h2 := (hI.flags_claims wk.pc hpc).mpr hmem
    rw [hflag] at h2
    exact Bool.false_ne_true h2
  refine ⟨?_, ?_, ?_, ?_, ?_, ?_, ?_, ?_, ?_⟩
  · dsimp only
    rw [List.length_set]
    exact hI.flags_len
  · dsimp only
    rw [List.length_set]
    exact hI.workers_len
  · intro p hp
    dsimp only at hp
    rw [List.mem_append] at hp
    rcases hp with hp | hp
    · exact hI.claims_lt p hp
    · rw [List.mem_singleton] at hp
      subst hp
      exact hpc
  · dsimp only
    rw [List.map_append]
    simp [List.nodup_append, hI.claims_nodup, hnotmem]
  · intro i hi
    dsimp only
    rw [List.map_append, List.mem_append]
    by_cases hie : i = wk.pc
    · subst hie
      rw [getD_set_self _ _ _ _ hpcf]
      simp
    · rw [getD_set_ne _ _ _ _ _ hie]
      rw [hI.flags_claims i hi]
      simp [hie]
  · intro wid' wk' h' j hj
    dsimp only at h' ⊢
    by_cases hww : wid' = wid
    · subst hww
      rw [getElem?_set_self _ _ _ hwidlt] at h'
      injection h' with h'
      subst h'
      rcases hcase with ⟨hnk, hv⟩ | ⟨hnk, hv⟩
      · rw [hnk] at hj
        rcases Nat.lt_succ_iff_lt_or_eq.mp hj with hj | hj
        · exact flag_true_preserved _ _ _ hpcf (hI.pc_flags wid' wk hwk j hj)
        · subst hj
          exact getD_set_self _ _ _ _ hpcf
      · rw [hnk] at hj
        exact flag_true_preserved _ _ _ hpcf (hI.pc_flags wid' wk hwk j hj)
    · rw [getElem?_set_ne _ _ _ _ hww] at h'
      exact flag_true_preserved _ _ _ hpcf (hI.pc_flags wid' wk' h' j hj)
  · intro wid' wk' h'
    dsimp only at h'
    by_cases hww : wid' = wid
    · subst hww
      rw [getElem?_set_self _ _ _ hwidlt] at h'
      injection h' with h'
      subst h'
      rcases hcase with ⟨hnk, _⟩ | ⟨hnk, _⟩
      · rw [hnk]
        exact hpc
      · rw [hnk]
        exact Nat.le_of_lt hpc
    · rw [getElem?_set_ne _ _ _ _ hww] at h'
      exact hI.pc_le wid' wk' h'
  · intro wid' wk' h' hc
    dsimp only at h' ⊢
    by_cases hww : wid' = wid
    · subst hww
      rw [getElem?_set_self _ _ _ hwidlt] at h'
      injection h' with h'
      subst h'
      rcases hcase with ⟨hnk, hv⟩ | ⟨hnk, hv⟩
      · rw [hnk] at hc
        rw [show ({ wk with pc := wk.pc + 1 } : Worker).corrupted = wk.corrupted from rfl,
            hcorr] at hc
        exact absurd hc Bool.false_ne_true
      · exact ⟨wk.pc, List.mem_append.mpr (Or.inr (List.mem_singleton.mpr rfl)), hv⟩
    · rw [getElem?_set_ne _ _ _ _ hww] at h'
      obtain ⟨i, hmem, hbad⟩ := hI.corrupt_bad wid' wk' h' hc
      exact ⟨i, List.mem_append.mpr (Or.inl hmem), hbad⟩
  · intro wid' i hmem hbad
    dsimp only at hmem ⊢
    rw [List.mem_append] at hmem
    rcases hmem with hmem | hmem
    · obtain ⟨wk'', h'', hc''⟩ := hI.claims_bad wid' i hmem hbad
      by_cases hww : wid' = wid
      · subst hww
        rw [hwk] at h''
        injection h'' with h''
        rw [← h''] at hc''
        rw [hcorr] at hc''
        exact absurd hc'' Bool.false_ne_true
      · refine ⟨wk'', ?_, hc''⟩
        rw [getElem?_set_ne _ _ _ _ hww]
        exact h''
    · rw [List.mem_singleton] at hmem
      have hw : wid' = wid := congrArg Prod.fst hmem
      have hi : i = wk.pc := congrArg Prod.snd hmem
      subst hw
      subst hi
      rcases hcase with ⟨hnk, hv⟩ | ⟨hnk, hv⟩
      · exact absurd hbad hv
      · subst hnk
        exact ⟨_, getElem?_set_self _ _ _ hwidlt, rfl⟩

/-- One successful scheduler step preserves the run invariant. -/
theorem stepInv {verdict : Nat → Verdict} {M N : Nat} {s s' : RunState} {wid : Nat}
    (hI : RunInv verdict M N s) (hs : step verdict M s wid = some s') :
    RunInv verdict M N s' := by
  unfold step at hs
  cases hwk : s.workers[wid]? with
  | none =>
    rw [hwk] at hs
    injection hs with hs
    subst hs
    exact hI
  | some wk =>
    rw [hwk] at hs
    dsimp only at hs
    by_cases hdone : workerDone M wk = true
    · rw [if_pos hdone] at hs
      injection hs with hs
      subst hs
      exact hI
    · rw [if_neg hdone] at hs
      obtain ⟨hcorr, hpc⟩ := notDone_facts hdone
      have hwidlt : wid < s.workers.length := getElem?_some_lt _ _ _ hwk
      have hpcf : wk.pc < s.flags.length := by rw [hI.flags_len]; exact hpc
      by_cases hflag : s.flags.getD wk.pc false = true
      · rw [if_pos hflag] at hs
        injection hs with hs
        subst hs
        refine ⟨hI.flags_len, ?_, hI.claims_lt, hI.claims_nodup, hI.flags_claims,
                ?_, ?_, ?_, ?_⟩
        · dsimp only
          rw [List.length_set]
          exact hI.workers_len
        · intro wid' wk' h' j hj
          dsimp only at h' ⊢
          by_cases hww : wid' = wid
          · subst hww
            rw [getElem?_set_self _ _ _ hwidlt] at h'
            injection h' with h'
            subst h'
            rcases Nat.lt_succ_iff_lt_or_eq.mp hj with hj | hj
            · exact hI.pc_flags wid' wk hwk j hj
            · subst hj
              exact hflag
          · rw [getElem?_set_ne _ _ _ _ hww] at h'
            exact hI.pc_flags wid' wk' h' j hj
        · intro wid' wk' h'
          dsimp only at h'
          by_cases hww : wid' = wid
          · subst hww
            rw [getElem?_set_self _ _ _ hwidlt] at h'
            injection h' with h'
            subst h'
            exact hpc
          · rw [getElem?_set_ne _ _ _ _ hww] at h'
            exact hI.pc_le wid' wk' h'
        · intro wid' wk' h' hc
          dsimp only at h' ⊢
          by_cases hww : wid' = wid
          · subst hww
            rw [getElem?_set_self _ _ _ hwidlt] at h'
            injection h' with h'
            subst h'
            rw [show ({ wk with pc := wk.pc + 1 } : Worker).corrupted = wk.corrupted from rfl,
                hcorr] at hc
            exact absurd hc Bool.false_ne_true
          · rw [getElem?_set_ne _ _ _ _ hww] at h'
            exact hI.corrupt_bad wid' wk' h' hc
        · intro wid' i hmem hbad
          dsimp only at hmem ⊢
          obtain ⟨wk'', h'', hc''⟩ := hI.claims_bad wid' i hmem hbad
          by_cases hww : wid' = wid
          · subst hww
            rw [hwk] at h''
            injection h'' with h''
            rw [← h''] at hc''
            rw [hcorr] at hc''
            exact absurd hc'' Bool.false_ne_true
          · refine ⟨wk'', ?_, hc''⟩
            rw [getElem?_set_ne _ _ _ _ hww]
            exact h''
      · rw [if_neg hflag] at hs
        have hflag' : s.flags.getD wk.pc false = false := by
          cases hb : s.flags.getD wk.pc false
          · rfl
          · exact absurd hb hflag
        cases hv : verdict wk.pc with
        | fatal =>
          rw [hv] at hs
          cases hs
        | bad =>
          rw [hv] at hs
          injection hs with hs
          subst hs
          exact claimInvAux hI hwk hcorr hpc hflag' (Or.inr ⟨rfl, hv⟩)
        | skip =>
          rw [hv] at hs
          injection hs with hs
          subst hs
          exact claimInvAux hI hwk hcorr hpc hflag'
            (Or.inl ⟨rfl, by rw [hv]; intro hc; exact Verdict.noConfusion hc⟩)
        | good =>
          rw [hv] at hs
          injection hs with hs
          subst hs
          exact claimInvAux hI hwk hcorr hpc hflag'
            (Or.inl ⟨rfl, by rw [hv]; intro hc; exact Verdict.noConfusion hc⟩)

/-- The run invariant is preserved along any successful schedule fold. -/
theorem foldlInv {verdict : Nat → Verdict} {M N : Nat} :
    ∀ (sched : List Nat) (s0 s : RunState), RunInv verdict M N s0 →
      sched.foldlM (step verdict M) s0 = some s → RunInv verdict M N s := by
  intro sched
  induction sched with
  | nil =>
    intro s0 s h0 hf
    injection hf with hf
    subst hf
    exact h0
  | cons w ws ih =>
    intro s0 s h0 hf
    rw [List.foldlM_cons] at hf
    cases hstep : step verdict M s0 w with
    | none =>
      rw [hstep] at hf
      exact Option.noConfusion hf
    | some s1 =>
      rw [hstep] at hf
      exact ih s1 s (stepInv h0 hstep) hf

/-- Every state a whole run can reach satisfies the invariant. -/
theorem runSchedInv {verdict : Nat → Verdict} {M N : Nat} {sched : List Nat} {s : RunState}
    (h : runSched verdict M N sched = some s) : RunInv verdict M N s :=
  foldlInv sched (initState M N) s (initInv verdict M N) h

/-- A worker that has recorded corruption stays corrupted across any step:
the shared corruption result only ever transitions false to true. -/
theorem step_corrupt_mono {verdict : Nat → Verdict} {M : Nat} {s s' : RunState}
    {wid w : Nat} {wk : Worker}
    (hwk : s.workers[wid]? = some wk) (hc : wk.corrupted = true)
    (hs : step verdict M s w = some s') :
    ∃ wk' : Worker, s'.workers[wid]? = some wk' ∧ wk'.corrupted = true := by
  unfold step at hs
  cases hwu : s.workers[w]? with
  | none =>
    rw [hwu] at hs
    injection hs with hs
    subst hs
    exact ⟨wk, hwk, hc⟩
  | some wu =>
    rw [hwu] at hs
    dsimp only at hs
    by_cases hdone : workerDone M wu = true
    · rw [if_pos hdone] at hs
      injection hs with hs
      subst hs
      exact ⟨wk, hwk, hc⟩
    · rw [if_neg hdone] at hs
      obtain ⟨hcorr, _⟩ := notDone_facts hdone
      have hww : wid ≠ w := by
        intro he
        subst he
        rw [hwk] at hwu
        injection hwu with hwu
        rw [← hwu] at hcorr
        rw [hc] at hcorr
        exact absurd hcorr (by decide)
      by_cases hflag : s.flags.getD wu.pc false = true
      · rw [if_pos hflag] at hs
        injection hs with hs
        subst hs
        refine ⟨wk, ?_, hc⟩
        dsimp only
        rw [getElem?_set_ne _ _ _ _ hww]
        exact hwk
      · rw [if_neg hflag] at hs
        cases hv : verdict wu.pc with
        | fatal =>
          rw [hv] at hs
          cases hs
        | bad =>
          rw [hv] at hs
          injection hs with hs
          subst hs
          refine ⟨wk, ?_, hc⟩
          dsimp only
          rw [getElem?_set_ne _ _ _ _ hww]
          exact hwk
        | skip =>
          rw [hv] at hs
          injection hs with hs
          subst hs
          refine ⟨wk, ?_, hc⟩
          dsimp only
          rw [getElem?_set_ne _ _ _ _ hww]
          exact hwk
        | good =>
          rw [hv] at hs
          injection hs with hs
          subst hs
          refine ⟨wk, ?_, hc⟩
          dsimp only
          rw [getElem?_set_ne _ _ _ _ hww]
          exact hwk

/-- Corruption monotonicity along a whole schedule fold. -/
theorem foldl_corrupt_mono {verdict : Nat → Verdict} {M : Nat} :
    ∀ (sched : List Nat) (s0 s : RunState) (wid : Nat) (wk : Worker),
      s0.workers[wid]? = some wk → wk.corrupted = true →
      sched.foldlM (step verdict M) s0 = some s →
      ∃ wk' : Worker, s.workers[wid]? = some wk' ∧ wk'.corrupted = true := by
  intro sched
  induction sched with
  | nil =>
    intro s0 s wid wk hwk hc hf
    injection hf with hf
    subst hf
    exact ⟨wk, hwk, hc⟩
  | cons w ws ih =>
    intro s0 s wid wk hwk hc hf
    rw [List.foldlM_cons] at hf
    cases hstep : step verdict M s0 w with
    | none =>
      rw [hstep] at hf
      exact Option.noConfusion hf
    | some s1 =>
      rw [hstep] at hf
      obtain ⟨wk1, h1, hc1⟩ := step_corrupt_mono hwk hc hstep
      exact ih s1 s wid wk1 h1 hc1 hf

/-- Once every worker has joined, further scheduling changes nothing. -/
theorem step_done {verdict : Nat → Verdict} {M : Nat} {s : RunState}
    (h : allDone M s = true) (w : Nat) : step verdict M s w = some s := by
  unfold allDone at h
  unfold step
  cases hwu : s.workers[w]? with
  | none => rfl
  | some wu =>
    have hd : workerDone M wu = true :=
      List.all_eq_true.mp h wu (List.getElem?_mem hwu)
    dsimp only
    rw [if_pos hd]

/-- A joined run is a fixed point of any further schedule. -/
theorem foldl_done {verdict : Nat → Verdict} {M : Nat} {s : RunState}
    (h : allDone M s = true) :
    ∀ (more : List Nat), more.foldlM (step verdict M) s = some s := by
  intro more
  induction more with
  | nil => rfl
  | cons w ws ih =>
    rw [List.foldlM_cons, step_done h w]
    exact ih

/-- The nodup claim log bounds every entry's claim count by one. -/
theorem atMostOnce {verdict : Nat → Verdict} {M N : Nat} {s : RunState}
    (hI : RunInv verdict M N s) (i : Nat) : claimCount s i ≤ 1 := by
  unfold claimCount
  rw [claimFilter_count]
  exact List.nodup_iff_count_le_one.mp hI.claims_nodup i

/-- When every worker has joined, at least one worker exists, and no entry
has a bad verdict (so no worker returned early), every entry was claimed
exactly once. -/
theorem exactOnce {verdict : Nat → Verdict} {M N : Nat} {s : RunState}
    (hI : RunInv verdict M N s) (hdone : allDone M s = true) (hN : 1 ≤ N)
    (hnb : ∀ j, j < M → verdict j ≠ .bad) :
    ∀ i, i < M → claimCount s i = 1 := by
  intro i hi
  have hnc : ∀ wk ∈ s.workers, wk.corrupted = false := by
    intro wk hmem
    cases hb : wk.corrupted
    · rfl
    · exfalso
      obtain ⟨wid, hwid⟩ := List.mem_iff_getElem?.mp hmem
      obtain ⟨j, hjmem, hjbad⟩ := hI.corrupt_bad wid wk hwid hb
      exact hnb j (hI.claims_lt _ hjmem) hjbad
  have h0 : 0 < s.workers.length := by rw [hI.workers_len]; exact hN
  have hg : s.workers[0]? = some (s.workers[0]) := List.getElem?_eq_getElem h0
  have hmem0 : s.workers[0] ∈ s.workers := List.getElem?_mem hg
  have hdone0 : workerDone M (s.workers[0]) = true := by
    unfold allDone at hdone
    exact List.all_eq_true.mp hdone _ hmem0
  have hMpc : M ≤ (s.workers[0]).pc := by
    unfold workerDone at hdone0
    rw [hnc _ hmem0] at hdone0
    rw [Bool.false_or, decide_eq_true_iff] at hdone0
    exact hdone0
  have hflag : s.flags.getD i false = true :=
    hI.pc_flags 0 _ hg i (Nat.lt_of_lt_of_le hi hMpc)
  have hmem : i ∈ s.claims.map Prod.snd := (hI.flags_claims i hi).mp hflag
  have h1 : 0 < (s.claims.map Prod.snd).count i := List.count_pos_iff.mpr hmem
  have h2 : (s.claims.map Prod.snd).count i ≤ 1 :=
    List.nodup_iff_count_le_one.mp hI.claims_nodup i
  unfold claimCount
  rw [claimFilter_count]
  omega

/-- After all workers joined, some worker recorded corruption iff some
manifest entry has a bad verdict. -/
theorem corrupted_iff_bad {verdict : Nat → Verdict} {M N : Nat} {s : RunState}
    (hI : RunInv verdict M N s) (hdone : allDone M s = true) (hN : 1 ≤ N) :
    (s.workers.any (fun w => w.corrupted) = true ↔ ∃ i, i < M ∧ verdict i = .bad) := by
  constructor
  · intro h
    obtain ⟨wk, hmem, hc⟩ := List.any_eq_true.mp h
    obtain ⟨wid, hwid⟩ := List.mem_iff_getElem?.mp hmem
    obtain ⟨j, hjmem, hjbad⟩ := hI.corrupt_bad wid wk hwid hc
    exact ⟨j, hI.claims_lt _ hjmem, hjbad⟩
  · rintro ⟨i, hi, hbad⟩
    by_cases hcl : i ∈ s.claims.map Prod.snd
    · obtain ⟨⟨a, b⟩, hp, hpi⟩ := List.mem_map.mp hcl
      have hb : b = i := hpi
      subst hb
      obtain ⟨wk, hw, hc⟩ := hI.claims_bad a b hp hbad
      exact List.any_eq_true.mpr ⟨wk, List.getElem?_mem hw, hc⟩
    · have hflag : s.flags.getD i false = false := by
        cases hb : s.flags.getD i false
        · rfl
        · exact absurd ((hI.flags_claims i hi).mp hb) hcl
      have h0 : 0 < s.workers.length := by rw [hI.workers_len]; exact hN
      have hg : s.workers[0]? = some (s.workers[0]) := List.getElem?_eq_getElem h0
      have hmem0 : s.workers[0] ∈ s.workers := List.getElem?_mem hg
      have hdone0 : workerDone M (s.workers[0]) = true := by
        unfold allDone at hdone
        exact List.all_eq_true.mp hdone _ hmem0
      have hc0 : (s.workers[0]).corrupted = true := by
        unfold workerDone at hdone0
        rw [Bool.or_eq_true] at hdone0
        rcases hdone0 with hc | hle
        · exact hc
        · exfalso
          rw [decide_eq_true_iff] at hle
          have h2 := hI.pc_flags 0 _ hg i (Nat.lt_of_lt_of_le hi hle)
          rw [hflag] at h2
          exact Bool.false_ne_true h2
      exact List.any_eq_true.mpr ⟨_, hmem0, hc0⟩

/-! ## Concrete fixtures for the validation-engine claims -/

/-- A regular manifest entry whose on-disk file has vanished under fsV. -/
def fileA : pgFile := ⟨"a", true, 1, 0⟩

/-- A regular manifest entry that validates cleanly under fsV. -/
def fileB : pgFile := ⟨"b", true, 1, 0⟩

/-- A filesystem in which path "a" has vanished and every other path is a
1-byte file with CRC 0. -/
def fsV : FileSystem :=
  ⟨fun p => if p == "a" then .noent else .ok 1, fun _ => 0⟩

/-- C9 original, refuted: a run in which the one worker claims entry 0 of
two, finds it corrupt (vanished file), returns early, and joins.  Every
worker has joined (allDone), yet entry 1 was claimed zero times, not
exactly once. -/
theorem C9_counterexample_early_return :
    (runSched (verdictOf fsV false false [fileA, fileB]) 2 1 [0, 0]).map
      (fun s => (allDone 2 s, claimCount s 0, claimCount s 1)) = some (true, 1, 0) := by
  rfl

/-- C9 (amended): in one validation run with N workers over a manifest of M
file entries, every entry's claim flag is reset to unclaimed before the
workers start; the atomic test-and-set claim guarantees each entry is
claimed by at most one worker, and by exactly one worker once all workers
have joined provided at least one worker exists and no entry's verdict is
bad (a bad verdict makes its worker return early, which can leave later
entries unclaimed); a worker's corruption result only transitions false to
true across any extension of the schedule; and once all workers have
joined, the state — including the corruption results then read — is stable
under any further scheduling. -/
theorem C9_claim_discipline (fs : FileSystem) (files : List pgFile)
    (interrupted size_only : Bool) (N : Nat) (sched : List Nat) (s : RunState)
    (hrun : runSched (verdictOf fs interrupted size_only files) files.length N sched
              = some s) :
    (initState files.length N).flags = List.replicate files.length false
    ∧ (∀ i, claimCount s i ≤ 1)
    ∧ (allDone files.length s = true → 1 ≤ N →
        (∀ j, j < files.length → verdictOf fs interrupted size_only files j ≠ .bad) →
        ∀ i, i < files.length → claimCount s i = 1)
    ∧ (∀ (wid : Nat) (wk : Worker), s.workers[wid]? = some wk → wk.corrupted = true →
        ∀ (more : List Nat) (s' : RunState),
          runSched (verdictOf fs interrupted size_only files) files.length N
              (sched ++ more) = some s' →
          ∃ wk' : Worker, s'.workers[wid]? = some wk' ∧ wk'.corrupted = true)
    ∧ (allDone files.length s = true → ∀ more : List Nat,
        runSched (verdictOf fs interrupted size_only files) files.length N
            (sched ++ more) = some s) := by
  have hI := runSchedInv hrun
  refine ⟨rfl, fun i => atMostOnce hI i, fun hd hN hnb => exactOnce hI hd hN hnb, ?_, ?_⟩
  · intro wid wk hw hc more s' hrun'
    unfold runSched at hrun hrun'
    rw [List.foldlM_append, hrun] at hrun'
    exact foldl_corrupt_mono more s s' wid wk hw hc hrun'
  · intro hd more
    unfold runSched at hrun ⊢
    rw [List.foldlM_append, hrun]
    exact foldl_done hd more

/-- Witness for C9_claim_discipline: one worker, one clean file, schedule
[0]; the run ends with the single entry claimed once. -/
theorem C9_witness :
    (initState [fileB].length 1).flags = List.replicate [fileB].length false
    ∧ (∀ i, claimCount ⟨[true], [(0, 0)], [⟨1, false⟩]⟩ i ≤ 1)
    ∧ (allDone [fileB].length ⟨[true], [(0, 0)], [⟨1, false⟩]⟩ = true → 1 ≤ 1 →
        (∀ j, j < [fileB].length → verdictOf fsV false false [fileB] j ≠ .bad) →
        ∀ i, i < [fileB].length → claimCount ⟨[true], [(0, 0)], [⟨1, false⟩]⟩ i = 1)
    ∧ (∀ (wid : Nat) (wk : Worker),
        (⟨[true], [(0, 0)], [⟨1, false⟩]⟩ : RunState).workers[wid]? = some wk →
        wk.corrupted = true →
        ∀ (more : List Nat) (s' : RunState),
          runSched (verdictOf fsV false false [fileB]) [fileB].length 1 ([0] ++ more)
              = some s' →
          ∃ wk' : Worker, s'.workers[wid]? = some wk' ∧ wk'.corrupted = true)
    ∧ (allDone [fileB].length ⟨[true], [(0, 0)], [⟨1, false⟩]⟩ = true →
        ∀ more : List Nat,
          runSched (verdictOf fsV false false [fileB]) [fileB].length 1 ([0] ++ more)
              = some ⟨[true], [(0, 0)], [⟨1, false⟩]⟩) :=
  C9_claim_discipline fsV [fileB] false false 1 [0] ⟨[true], [(0, 0)], [⟨1, false⟩]⟩
    (by rfl)

theorem validate_result_ne (b : pgBackup) :
    (some ({ b with status := .BACKUP_STATUS_CORRUPT }, true) : Option (pgBackup × Bool)) ≠
      some ({ b with status := .BACKUP_STATUS_OK }, true) := by
  intro h
  have h2 := congrArg (fun o : Option (pgBackup × Bool) => o.map (fun p => p.1.status)) h
  simp at h2

/-- The bad verdict of one loop iteration is exactly the claim's corruption
condition: a regular entry with a real recorded size whose file vanished,
has a different on-disk size, or (CRC mode) a different recomputed CRC. -/
theorem fileVerdict_bad_iff (fs : FileSystem) (f : pgFile) :
    fileVerdict fs false false f = .bad ↔
      (f.isreg = true ∧ f.write_size ≠ BYTES_INVALID ∧
        (fs.stat f.path = .noent
         ∨ (∃ sz, fs.stat f.path = .ok sz ∧ f.write_size ≠ sz)
         ∨ (∃ sz, fs.stat f.path = .ok sz ∧ f.write_size = sz ∧ fs.crc f.path ≠ f.crc))) := by
  unfold fileVerdict
  rw [if_neg (by decide : ¬ ((false : Bool) = true))]
  by_cases hskip : (f.write_size == BYTES_INVALID || !f.isreg) = true
  · rw [if_pos hskip]
    rw [Bool.or_eq_true, beq_iff_eq, Bool.not_eq_true'] at hskip
    constructor
    · intro h
      exact Verdict.noConfusion h
    · rintro ⟨hreg, hsen, _⟩
      rcases hskip with hs | hs
      · exact absurd hs hsen
      · rw [hreg] at hs
        exact absurd hs (by decide)
  · rw [if_neg hskip]
    rw [Bool.or_eq_true] at hskip
    push_neg at hskip
    obtain ⟨hsen, hreg⟩ := hskip
    have hsen' : f.write_size ≠ BYTES_INVALID := by
      intro he
      exact hsen (by rw [he]; exact beq_self_eq_true _)
    have hreg' : f.isreg = true := by
      cases hb : f.isreg
      · exact absurd (by rw [hb]; rfl) hreg
      · rfl
    cases hstat : fs.stat f.path with
    | noent =>
      constructor
      · intro _
        exact ⟨hreg', hsen', Or.inl rfl⟩
      · intro _
        rfl
    | err =>
      constructor
      · intro h
        exact Verdict.noConfusion h
      · rintro ⟨_, _, h | ⟨sz, hsz, _⟩ | ⟨sz, hsz, _⟩⟩
        · exact StatResult.noConfusion h
        · exact StatResult.noConfusion hsz
        · exact StatResult.noConfusion hsz
    | ok sz =>
      dsimp only
      by_cases hsz : (f.write_size != sz) = true
      · rw [if_pos hsz]
        rw [bne_iff_ne] at hsz
        constructor
        · intro _
          exact ⟨hreg', hsen', Or.inr (Or.inl ⟨sz, rfl, hsz⟩)⟩
        · intro _
          rfl
      · rw [if_neg hsz]
        have hsz' : f.write_size = sz := by
          by_contra hc
          exact hsz (bne_iff_ne.mpr hc)
        by_cases hcrc : (!false && fs.crc f.path != f.crc) = true
        · rw [if_pos hcrc]
          rw [Bool.not_false, Bool.true_and, bne_iff_ne] at hcrc
          constructor
          · intro _
            exact ⟨hreg', hsen', Or.inr (Or.inr ⟨sz, rfl, hsz', hcrc⟩)⟩
          · intro _
            rfl
        · rw [if_neg hcrc]
          rw [Bool.not_false, Bool.true_and] at hcrc
          have hcrc' : fs.crc f.path = f.crc := by
            by_contra hc
            exact hcrc (bne_iff_ne.mpr hc)
          constructor
          · intro h
            exact Verdict.noConfusion h
          · rintro ⟨_, _, h | ⟨sz2, hsz2, hne2⟩ | ⟨sz2, hsz2, _, hcrc2⟩⟩
            · exact StatResult.noConfusion h
            · injection hsz2 with hsz2
              rw [← hsz2] at hne2
              exact absurd hsz' hne2
            · exact absurd hcrc' hcrc2

/-- A vanished file is a soft failure of the iteration, never the fatal
abort (the fatal verdict needs the interrupted flag or a stat failure
other than ENOENT). -/
theorem fileVerdict_noent_not_fatal (fs : FileSystem) (size_only : Bool) (f : pgFile)
    (h : fs.stat f.path = .noent) : fileVerdict fs false size_only f ≠ .fatal := by
  unfold fileVerdict
  rw [if_neg (by decide : ¬ ((false : Bool) = true))]
  by_cases hskip : (f.write_size == BYTES_INVALID || !f.isreg) = true
  · rw [if_pos hskip]
    exact fun hc => Verdict.noConfusion hc
  · rw [if_neg hskip]
    rw [h]
    exact fun hc => Verdict.noConfusion hc

/-- C1: for a data-mode backup (FULL, DIFF_PAGE, DIFF_PTRACK) validated in
CRC mode with the pool joined, pgBackupValidate persists status CORRUPT
exactly when some manifest entry's verdict is bad, and persists status OK
otherwise; a bad verdict is exactly a regular entry with a real recorded
size whose file vanished, whose on-disk size differs from write_size, or
whose recomputed CRC differs from the stored CRC; and a vanished file is
never the fatal verdict — it only contributes the soft corruption result. -/
theorem C1_validate_corrupt_or_ok (fs : FileSystem) (files : List pgFile)
    (N : Nat) (sched : List Nat) (backup : pgBackup) (s : RunState)
    (hmode : modeIsData backup.backup_mode = true)
    (hrun : runSched (verdictOf fs false false files) files.length N sched = some s)
    (hdone : allDone files.length s = true) (hN : 1 ≤ N) :
    (pgBackupValidate false fs files false false N sched backup =
        some ({ backup with status := .BACKUP_STATUS_CORRUPT }, true)
      ↔ ∃ i, i < files.length ∧ verdictOf fs false false files i = .bad)
    ∧ (pgBackupValidate false fs files false false N sched backup =
        some ({ backup with status := .BACKUP_STATUS_OK }, true)
      ↔ ¬ ∃ i, i < files.length ∧ verdictOf fs false false files i = .bad)
    ∧ (∀ f : pgFile, fileVerdict fs false false f = .bad ↔
        (f.isreg = true ∧ f.write_size ≠ BYTES_INVALID ∧
          (fs.stat f.path = .noent
           ∨ (∃ sz, fs.stat f.path = .ok sz ∧ f.write_size ≠ sz)
           ∨ (∃ sz, fs.stat f.path = .ok sz ∧ f.write_size = sz ∧
                fs.crc f.path ≠ f.crc))))
    ∧ (∀ f : pgFile, fs.stat f.path = .noent → fileVerdict fs false false f ≠ .fatal) := by
  have hI := runSchedInv hrun
  have hiff := corrupted_iff_bad hI hdone hN
  have hne := validate_result_ne backup
  have hres : pgBackupValidate false fs files false false N sched backup =
      (if s.workers.any (fun w => w.corrupted) = true then
        some ({ backup with status := .BACKUP_STATUS_CORRUPT }, true)
      else some ({ backup with status := .BACKUP_STATUS_OK }, true)) := by
    unfold pgBackupValidate
    rw [if_neg (by decide : ¬ ((false : Bool) = true)), if_pos hmode, hrun]
  by_cases hany : s.workers.any (fun w => w.corrupted) = true
  · rw [if_pos hany] at hres
    have hex := hiff.mp hany
    exact ⟨⟨fun _ => hex, fun _ => hres⟩,
           ⟨fun hok => (hne (hres.symm.trans hok)).elim, fun hnex => (hnex hex).elim⟩,
           fun f => fileVerdict_bad_iff fs f,
           fun f hf => fileVerdict_noent_not_fatal fs false f hf⟩
  · rw [if_neg hany] at hres
    have hnex : ¬ ∃ i, i < files.length ∧ verdictOf fs false false files i = .bad :=
      fun hex => absurd (hiff.mpr hex) hany
    exact ⟨⟨fun hcor => (hne (hcor.symm.trans hres)).elim, fun hex => (hnex hex).elim⟩,
           ⟨fun _ => hnex, fun _ => hres⟩,
           fun f => fileVerdict_bad_iff fs f,
           fun f hf => fileVerdict_noent_not_fatal fs false f hf⟩

/-- Witness for C1_validate_corrupt_or_ok: one worker validating the single
vanished file fileA; the run joins with the worker corrupted and the record
is persisted as CORRUPT. -/
theorem C1_witness :
    (pgBackupValidate false fsV [fileA] false false 1 [0] sampleBackup =
        some ({ sampleBackup with status := .BACKUP_STATUS_CORRUPT }, true)
      ↔ ∃ i, i < [fileA].length ∧ verdictOf fsV false false [fileA] i = .bad)
    ∧ (pgBackupValidate false fsV [fileA] false false 1 [0] sampleBackup =
        some ({ sampleBackup with status := .BACKUP_STATUS_OK }, true)
      ↔ ¬ ∃ i, i < [fileA].length ∧ verdictOf fsV false false [fileA] i = .bad)
    ∧ (∀ f : pgFile, fileVerdict fsV false false f = .bad ↔
        (f.isreg = true ∧ f.write_size ≠ BYTES_INVALID ∧
          (fsV.stat f.path = .noent
           ∨ (∃ sz, fsV.stat f.path = .ok sz ∧ f.write_size ≠ sz)
           ∨ (∃ sz, fsV.stat f.path = .ok sz ∧ f.write_size = sz ∧
                fsV.crc f.path ≠ f.crc))))
    ∧ (∀ f : pgFile, fsV.stat f.path = .noent → fileVerdict fsV false false f ≠ .fatal) :=
  C1_validate_corrupt_or_ok fsV [fileA] 1 [0] sampleBackup
    ⟨[true], [(0, 0)], [⟨0, true⟩]⟩ (by rfl) (by rfl) (by rfl) (by decide)

/-- C10: with the global check flag unset, a backup whose mode is none of
FULL, DIFF_PAGE, DIFF_PTRACK (equivalently, mode INVALID, the only other
mode) skips the whole file-checking block — the persisted outcome does not
depend on the filesystem, the manifest, the interrupted flag, size_only,
the pool size or the schedule — and status OK is persisted unconditionally. -/
theorem C10_non_data_mode (fs : FileSystem) (files : List pgFile)
    (interrupted size_only : Bool) (N : Nat) (sched : List Nat) (backup : pgBackup)
    (hmode : modeIsData backup.backup_mode = false) :
    pgBackupValidate false fs files interrupted size_only N sched backup =
      some ({ backup with status := .BACKUP_STATUS_OK }, true)
    ∧ (∀ m : BackupMode, modeIsData m = false ↔ m = .BACKUP_MODE_INVALID) := by
  constructor
  · unfold pgBackupValidate
    rw [if_neg (by decide : ¬ ((false : Bool) = true)),
        if_neg (by rw [hmode]; decide)]
  · intro m
    cases m <;> simp [modeIsData]

/-- Witness for C10_non_data_mode: an INVALID-mode record is persisted OK
with no file ever consulted. -/
theorem C10_witness :
    pgBackupValidate false fsV [fileA] true false 1 [0]
        { sampleBackup with backup_mode := .BACKUP_MODE_INVALID } =
      some ({ { sampleBackup with backup_mode := .BACKUP_MODE_INVALID } with
                status := .BACKUP_STATUS_OK }, true)
    ∧ (∀ m : BackupMode, modeIsData m = false ↔ m = .BACKUP_MODE_INVALID) :=
  C10_non_data_mode fsV [fileA] true false 1 [0]
    { sampleBackup with backup_mode := .BACKUP_MODE_INVALID } (by rfl)
